import Mathlib

/-!
Verification of the query-understanding and retrieval-filtering pipeline of
`history/backend/main.py` (a retrieval-augmented QA service over browsing
history).  Python strings are embedded as `List Char` (`Str`); the string
operations used by the source (`in` substring test, `.lower()`, `.split()`,
`.strip()`, `.startswith`, f-string number formatting, and the handful of
regular expressions appearing in the source) are modelled by executable
functions below, each faithful to the CPython semantics of the construct it
replaces.  Effectful steps (chat completion, embeddings, vector-store calls)
are passed in as explicit `Except`-valued inputs; the per-process string
`hash` and the iteration order of Python `set` objects are passed in as
explicit parameters, since CPython fixes them only per process run.
-/

set_option maxRecDepth 10000

abbrev Str := List Char

def str (s : String) : Str := s.data

/-- Python `\s` / `str.split()` / `str.strip()` whitespace (ASCII part). -/
def isSpaceC (c : Char) : Bool :=
  c == ' ' || c == '\t' || c == '\n' || c == '\r' || c == '\x0b' || c == '\x0c'

/-- Python `\d` (ASCII digits, scalar values 48-57). -/
def isDigitC (c : Char) : Bool :=
  48 ≤ c.toNat && c.toNat ≤ 57

/-- Python `str.lower()` (ASCII case folding; all source patterns are ASCII). -/
def lowerS (s : Str) : Str := s.map Char.toLower

/-- Python `str.upper()`. -/
def upperS (s : Str) : Str := s.map Char.toUpper

/-- Boolean list-prefix test (Python `str.startswith`, and the anchored step
of regex matching). -/
def leadsWith : Str → Str → Bool
  | [], _ => true
  | _ :: _, [] => false
  | a :: as, b :: bs => a == b && leadsWith as bs

/-- Python `pat in s` substring test. -/
def containsSub (pat : Str) : Str → Bool
  | [] => pat.isEmpty
  | c :: t => leadsWith pat (c :: t) || containsSub pat t

/-- Python `str.split()` (split on whitespace runs, no empty tokens). -/
def splitWsAux : Str → Str → List Str
  | [], acc => if acc.isEmpty then [] else [acc.reverse]
  | c :: t, acc =>
    if isSpaceC c then
      if acc.isEmpty then splitWsAux t [] else acc.reverse :: splitWsAux t []
    else splitWsAux t (c :: acc)

def splitWs (s : Str) : List Str := splitWsAux s []

/-- Python `str.strip()`. -/
def stripWs (s : Str) : Str :=
  ((s.dropWhile isSpaceC).reverse.dropWhile isSpaceC).reverse

/-- Decimal digit character of `n < 10`. -/
def digitC (n : Nat) : Char := Char.ofNat (48 + n)

/-- Decimal representation of a natural number (Python `f"{n}"`), via fuel
to keep the definition structurally recursive (fuel `n+1` always suffices). -/
def natReprAux : Nat → Nat → Str
  | 0, _ => []
  | f + 1, n => if n < 10 then [digitC n] else natReprAux f (n / 10) ++ [digitC (n % 10)]

def natRepr (n : Nat) : Str := natReprAux (n + 1) n

/-- Python `f"{n:02d}"` for `n ≤ 99` (all uses in the source are ≤ 99), and
also `str.zfill(2)` applied to the decimal form of `n`. -/
def pad2 (n : Nat) : Str := if n < 10 then ['0', digitC n] else natRepr n

/-! ## Categorizer (`categorize_url`, `main.py` lines 91-102) -/

def categorize_url (url _title : Str) : Str :=
  let u := lowerS url
  if containsSub (str "leetcode.com") u then str "Programming Practice"
  else if containsSub (str "github.com") u then str "Code Repository"
  else if containsSub (str "chatgpt.com") u || containsSub (str "claude.ai") u
      || containsSub (str "perplexity.ai") u then str "AI Assistant"
  else if containsSub (str "docs.google.com") u then str "Documentation"
  else if containsSub (str "aws") u then str "Cloud Services"
  else if containsSub (str "x.com") u || containsSub (str "twitter.com") u then str "Social Media"
  else if containsSub (str "cricbuzz.com") u then str "Sports News"
  else if containsSub (str "youtube.com") u || containsSub (str "music.youtube.com") u then str "Media"
  else if containsSub (str "spotify.com") u then str "Music Streaming"
  else str "General"

/-- Specification-side reading of the Categorizer: an ordered cascade of
(substring-pattern list, category) rules, first match wins, fallback
`General`.  This is the spec's description, to be compared with
`categorize_url` above. -/
def firstMatchCategory (u : Str) : List (List Str × Str) → Str
  | [] => str "General"
  | (pats, cat) :: rest =>
    if pats.any (fun p => containsSub p u) then cat else firstMatchCategory u rest

def categoryRules : List (List Str × Str) :=
  [([str "leetcode.com"], str "Programming Practice"),
   ([str "github.com"], str "Code Repository"),
   ([str "chatgpt.com", str "claude.ai", str "perplexity.ai"], str "AI Assistant"),
   ([str "docs.google.com"], str "Documentation"),
   ([str "aws"], str "Cloud Services"),
   ([str "x.com", str "twitter.com"], str "Social Media"),
   ([str "cricbuzz.com"], str "Sports News"),
   ([str "youtube.com", str "music.youtube.com"], str "Media"),
   ([str "spotify.com"], str "Music Streaming")]

def categorize_spec (url : Str) : Str := firstMatchCategory (lowerS url) categoryRules

/-! ## Query Interpreter flags (`chat_structured`, lines 462-474) -/

def musicExclusionPhrases : List Str :=
  [str "apart from song", str "except song", str "besides song",
   str "other than song", str "excluding song", str "not song", str "no song"]

def musicTriggerWords : List Str :=
  [str "song", str "music", str "sing", str "artist", str "track"]

/-- `exclude_music` flag of `chat_structured` (argument is the already
lower-cased question `q_lower`). -/
def exclude_music (qLower : Str) : Bool :=
  musicExclusionPhrases.any (fun p => containsSub p qLower)

/-- `exclude_youtube` flag of `chat_structured`. -/
def exclude_youtube (qLower : Str) : Bool :=
  containsSub (str "apart from youtube") qLower || containsSub (str "except youtube") qLower

/-- `is_music_query` flag of `chat_structured`. -/
def is_music_query (qLower : Str) : Bool :=
  !exclude_music qLower && musicTriggerWords.any (fun w => containsSub w qLower)

/-! ## Candidate metadata and the exclusion pass (lines 544-584) -/

structure Meta where
  title : Str
  domain : Str
  visit_date : Str
  content_category : Str
deriving DecidableEq, Repr

def musicIndicatorPhrases : List Str :=
  [str "official audio", str "official video", str "music video", str "lyric",
   str "lyrics", str "(audio)", str "(official)", str "ft.", str "feat."]

def musicLikeTokens : List Str :=
  [str " - ", str "official", str "audio", str "music", str "ft", str "feat"]

/-- Music-exclusion section of the candidate loop (lines 562-572): an
`if`/`elif`/`elif` chain on the lower-cased title, domain and category. -/
def music_exclusion (m : Meta) : Bool :=
  let titleLower := lowerS m.title
  let dom := lowerS m.domain
  let cat := lowerS m.content_category
  if musicIndicatorPhrases.any (fun p => containsSub p titleLower) then true
  else if dom == str "youtube.com" || dom == str "music.youtube.com" then
    musicLikeTokens.any (fun t => containsSub t titleLower)
  else if cat == str "media" || cat == str "music streaming" then true
  else false

/-- Python truthiness of an optional string (`if artist_filter:`). -/
def truthyOpt : Option Str → Bool
  | none => false
  | some s => !s.isEmpty

/-- Full `should_exclude` computation for one candidate (lines 548-577):
artist filtering, music exclusion, and the YouTube exclusion; each section
can only set the flag, so the result is their disjunction. -/
def should_exclude (excMusic excYT : Bool) (artistFilter : Option Str)
    (isMusic : Bool) (m : Meta) : Bool :=
  let titleLower := lowerS m.title
  let dom := lowerS m.domain
  let artistPart :=
    match artistFilter with
    | some a => truthyOpt (some a) && isMusic && !containsSub (lowerS a) titleLower
    | none => false
  let musicPart := excMusic && music_exclusion m
  let ytPart := excYT && containsSub (str "youtube.com") dom
  artistPart || musicPart || ytPart

/-- The three drop conditions exactly as the claim words them (spec side):
(a) a music-indicator phrase in the lower-cased title. -/
def claimCondA (m : Meta) : Bool :=
  musicIndicatorPhrases.any (fun p => containsSub p (lowerS m.title))

/-- Candidate domain is youtube.com or music.youtube.com. -/
def ytDomain (m : Meta) : Bool :=
  lowerS m.domain == str "youtube.com" || lowerS m.domain == str "music.youtube.com"

/-- Lower-cased candidate title contains a music-like token. -/
def hasMusicTok (m : Meta) : Bool :=
  musicLikeTokens.any (fun t => containsSub t (lowerS m.title))

/-- (b) YouTube/YouTube-Music domain and a music-like token in the title. -/
def claimCondB (m : Meta) : Bool := ytDomain m && hasMusicTok m

/-- (c) content category Media or Music Streaming. -/
def claimCondC (m : Meta) : Bool :=
  lowerS m.content_category == str "media" || lowerS m.content_category == str "music streaming"

/-! ## Date extraction (`extract_date`, lines 162-210)

The source uses `re.search` with patterns of the shapes `name\s+(\d{4})`,
`name\s*(\d{1,2})`, `(\d{1,2})\s*name`, `(\d{4})-(\d{1,2})-(\d{1,2})` and
`(\d{1,2})/(\d{1,2})/(\d{4})`.  `re.search` returns the leftmost position at
which the whole pattern matches; since `\s` and `\d` are disjoint character
classes, the greedy quantifiers below never need to backtrack except for the
`\d{1,2}` groups followed by a literal, where the two-digit attempt is tried
before the one-digit one, exactly as the regex engine does. -/

/-- Value of a decimal digit character. -/
def charVal (c : Char) : Nat := c.toNat - 48

/-- Leftmost-match search: try the at-position matcher at every suffix, left
to right (the `re.search` driver). -/
def search (m : Str → Option α) : Str → Option α
  | [] => m []
  | c :: t => (m (c :: t)).orElse fun _ => search m t

/-- At-position matcher for `name\s+(\d{4})` (`m_year`). -/
def matchNameYear (kw : Str) (s : Str) : Option Nat :=
  if leadsWith kw s then
    let r := s.drop kw.length
    let sp := r.takeWhile isSpaceC
    if sp.isEmpty then none
    else
      match r.drop sp.length with
      | a :: b :: c :: d :: _ =>
        if isDigitC a && isDigitC b && isDigitC c && isDigitC d then
          some (((charVal a * 10 + charVal b) * 10 + charVal c) * 10 + charVal d)
        else none
      | _ => none
  else none

/-- At-position matcher for `name\s*(\d{1,2})` (`m1`). -/
def matchNameDay (kw : Str) (s : Str) : Option Nat :=
  if leadsWith kw s then
    match (s.drop kw.length).dropWhile isSpaceC with
    | a :: rest =>
      if isDigitC a then
        match rest with
        | b :: _ => if isDigitC b then some (charVal a * 10 + charVal b) else some (charVal a)
        | [] => some (charVal a)
      else none
    | [] => none
  else none

/-- At-position matcher for `(\d{1,2})\s*name` (`m2`); the two-digit reading
of the group is attempted before the one-digit one. -/
def matchDayName (kw : Str) : Str → Option Nat
  | [] => none
  | a :: rest =>
    if isDigitC a then
      match rest with
      | b :: rest2 =>
        if isDigitC b && leadsWith kw (rest2.dropWhile isSpaceC) then
          some (charVal a * 10 + charVal b)
        else if leadsWith kw (rest.dropWhile isSpaceC) then some (charVal a)
        else none
      | [] => if leadsWith kw ([] : Str) then some (charVal a) else none
    else none

/-- Tail step for `(\d{4})-(\d{1,2})-(\d{1,2})`: the day group (pattern end,
greedy two digits). -/
def matchIsoDay (y mo : Str) : Str → Option Str
  | d1 :: rest =>
    if isDigitC d1 then
      let ds :=
        match rest with
        | d2 :: _ => if isDigitC d2 then [d1, d2] else [d1]
        | [] => [d1]
      some (y ++ str "-" ++ (if mo.length = 1 then '0' :: mo else mo)
              ++ str "-" ++ (if ds.length = 1 then '0' :: ds else ds))
    else none
  | [] => none

/-- At-position matcher for `(\d{4})-(\d{1,2})-(\d{1,2})`, returning the
already-formatted `f"{y}-{mo.zfill(2)}-{d.zfill(2)}"` value. -/
def matchIso : Str → Option Str
  | y1 :: y2 :: y3 :: y4 :: c5 :: m1 :: rest =>
    if isDigitC y1 && isDigitC y2 && isDigitC y3 && isDigitC y4 && c5 == '-'
        && isDigitC m1 then
      (match rest with
       | m2 :: c7 :: r4 =>
         if isDigitC m2 && c7 == '-' then matchIsoDay [y1, y2, y3, y4] [m1, m2] r4
         else none
       | _ => none).orElse fun _ =>
        match rest with
        | c6 :: r4 => if c6 == '-' then matchIsoDay [y1, y2, y3, y4] [m1] r4 else none
        | _ => none
    else none
  | _ => none

/-- Tail step for `(\d{1,2})/(\d{1,2})/(\d{4})`: the year group and the
formatted result `f"{y}-{mo.zfill(2)}-{d.zfill(2)}"`. -/
def matchUsYear (mo d : Str) : Str → Option Str
  | y1 :: y2 :: y3 :: y4 :: _ =>
    if isDigitC y1 && isDigitC y2 && isDigitC y3 && isDigitC y4 then
      some ([y1, y2, y3, y4] ++ str "-" ++ (if mo.length = 1 then '0' :: mo else mo)
              ++ str "-" ++ (if d.length = 1 then '0' :: d else d))
    else none
  | _ => none

/-- Day group and slash of `(\d{1,2})/(\d{1,2})/(\d{4})`. -/
def matchUsDay (mo : Str) : Str → Option Str
  | d1 :: rest =>
    if isDigitC d1 then
      (match rest with
       | d2 :: c :: r =>
         if isDigitC d2 && c == '/' then matchUsYear mo [d1, d2] r else none
       | _ => none).orElse fun _ =>
        match rest with
        | c :: r => if c == '/' then matchUsYear mo [d1] r else none
        | _ => none
    else none
  | [] => none

/-- At-position matcher for `(\d{1,2})/(\d{1,2})/(\d{4})`. -/
def matchUs : Str → Option Str
  | m1 :: rest =>
    if isDigitC m1 then
      (match rest with
       | m2 :: c :: r =>
         if isDigitC m2 && c == '/' then matchUsDay [m1, m2] r else none
       | _ => none).orElse fun _ =>
        match rest with
        | c :: r => if c == '/' then matchUsDay [m1] r else none
        | _ => none
    else none
  | [] => none

/-- The `months` dict of `extract_date`, in insertion (= iteration) order. -/
def monthKeys : List (Str × Nat) :=
  [(str "jan", 1), (str "january", 1), (str "feb", 2), (str "february", 2),
   (str "mar", 3), (str "march", 3), (str "apr", 4), (str "april", 4),
   (str "may", 5), (str "jun", 6), (str "june", 6), (str "jul", 7),
   (str "july", 7), (str "aug", 8), (str "august", 8), (str "sep", 9),
   (str "september", 9), (str "oct", 10), (str "october", 10), (str "nov", 11),
   (str "november", 11), (str "dec", 12), (str "december", 12)]

/-- Month/day formatting used by `extract_date` return values. -/
def fmtMonth (year num : Nat) : Str := natRepr year ++ str "-" ++ pad2 num

def fmtDay (year num d : Nat) : Str :=
  natRepr year ++ str "-" ++ pad2 num ++ str "-" ++ pad2 d

/-- The `for name, num in months.items()` loop body of `extract_date`. -/
def monthsLoop (currentYear : Nat) (q : Str) : List (Str × Nat) → Option Str
  | [] => none
  | (name, num) :: rest =>
    match search (matchNameYear name) q with
    | some y => some (fmtMonth y num)
    | none =>
      match search (matchNameDay name) q with
      | some d => some (fmtDay currentYear num d)
      | none =>
        match search (matchDayName name) q with
        | some d => some (fmtDay currentYear num d)
        | none =>
          if containsSub name q && decide (3 < name.length) then
            some (fmtMonth currentYear num)
          else monthsLoop currentYear q rest

/-- Civil calendar date (proleptic Gregorian), standing in for the local
`datetime.now()` value and for parsed dates. -/
structure PDate where
  year : Nat
  month : Nat
  day : Nat
deriving DecidableEq, Repr

def isLeapYear (y : Nat) : Bool := (y % 4 == 0 && y % 100 != 0) || y % 400 == 0

def daysInMonth (y m : Nat) : Nat :=
  if m == 2 then (if isLeapYear y then 29 else 28)
  else if m == 4 || m == 6 || m == 9 || m == 11 then 30
  else 31

/-- `datetime - timedelta(days=1)` on the calendar. -/
def prevDay (d : PDate) : PDate :=
  if 1 < d.day then ⟨d.year, d.month, d.day - 1⟩
  else if 1 < d.month then ⟨d.year, d.month - 1, daysInMonth d.year (d.month - 1)⟩
  else ⟨d.year - 1, 12, 31⟩

def minusDays : Nat → PDate → PDate
  | 0, d => d
  | n + 1, d => minusDays n (prevDay d)

/-- `datetime.strftime('%Y-%m-%d')`. -/
def fmtYMD (d : PDate) : Str := fmtDay d.year d.month d.day

/-- `extract_date` (lines 162-210); `today` models `datetime.now()`. -/
def extract_date (today : PDate) (query : Str) : Option Str :=
  let q := lowerS query
  if containsSub (str "yesterday") q then some (fmtYMD (prevDay today))
  else if containsSub (str "today") q then some (fmtYMD today)
  else if containsSub (str "last week") q then some (fmtYMD (minusDays 7 today))
  else if containsSub (str "this week") q then some (fmtYMD today)
  else
    match monthsLoop today.year q monthKeys with
    | some r => some r
    | none =>
      match search matchIso q with
      | some r => some r
      | none => search matchUs q

/-! ## Domain extraction (`extract_domain`, lines 212-220) -/

def domainMapping : List (Str × Str) :=
  [(str "youtube", str "youtube.com"), (str "spotify", str "spotify.com"),
   (str "github", str "github.com"), (str "leetcode", str "leetcode.com"),
   (str "google docs", str "docs.google.com"), (str "gmail", str "mail.google.com"),
   (str "x.com", str "x.com"), (str "twitter", str "x.com")]

def domainLoop (q : Str) : List (Str × Str) → Option Str
  | [] => none
  | (k, v) :: rest => if containsSub k q then some v else domainLoop q rest

def extract_domain (query : Str) : Option Str :=
  domainLoop (lowerS query) domainMapping

/-! ## Rendering of an extracted date back to text (lines 450-460)

`chat_structured` re-parses the extracted `date_filter` string with
`strptime` and appends `dt.strftime('%B %Y')` (month granularity) or
`dt.strftime('%A %B %d %Y')` (day granularity) to the expansion text;
a parse failure skips the append.  `strptime('%Y-%m-%d')` accepts exactly a
4-digit year, a 1-2 digit month in 1..12 and a 1-2 digit day that is valid
for that month and year. -/

def monthName : Nat → Str
  | 1 => str "January" | 2 => str "February" | 3 => str "March"
  | 4 => str "April" | 5 => str "May" | 6 => str "June"
  | 7 => str "July" | 8 => str "August" | 9 => str "September"
  | 10 => str "October" | 11 => str "November" | 12 => str "December"
  | _ => str ""

/-- Day number used by `%A`: days elapsed since the epoch of the proleptic
Gregorian calendar, reduced mod 7 (0001-01-01 was a Monday). -/
def dayNumber (d : PDate) : Nat :=
  let a := (14 - d.month) / 12
  let y := d.year + 4800 - a
  let m := d.month + 12 * a - 3
  d.day + (153 * m + 2) / 5 + 365 * y + y / 4 - y / 100 + y / 400

def weekdayOfNum : Nat → Str
  | 0 => str "Friday" | 1 => str "Saturday" | 2 => str "Sunday"
  | 3 => str "Monday" | 4 => str "Tuesday" | 5 => str "Wednesday"
  | _ => str "Thursday"

def weekdayName (d : PDate) : Str := weekdayOfNum (dayNumber d % 7)

/-- `dt.strftime('%B %Y')` for the month-granularity branch. -/
def renderMonth (y m : Nat) : Str := monthName m ++ str " " ++ natRepr y

/-- `dt.strftime('%A %B %d %Y')` for the day-granularity branch (`%d` is
zero-padded, `%Y` is the plain decimal year). -/
def renderDay (y m d : Nat) : Str :=
  weekdayName ⟨y, m, d⟩ ++ str " " ++ monthName m ++ str " " ++ pad2 d ++ str " " ++ natRepr y

/-- `strptime`-validity of components for `%Y-%m-%d`. -/
def validDate (y m d : Nat) : Prop :=
  1000 ≤ y ∧ y ≤ 9999 ∧ 1 ≤ m ∧ m ≤ 12 ∧ 1 ≤ d ∧ d ≤ daysInMonth y m

/-! ## Artist Resolver (`extract_artist_from_query`, lines 269-333)

The featuring-style patterns are scanned with `re.finditer`; each pattern
can backtrack only in one place: after `\s+` has greedily eaten a run of
whitespace, an empty capture group makes the engine give one whitespace
character back to the capture (possible only when the run has length ≥ 2,
and the resulting capture is that single whitespace character). -/

/-- `re.sub(r'^\(\d+\)\s*', '', s)`: strip one leading `"(<digits>) "`
numeric prefix. -/
def stripNumPrefixS (s : Str) : Str :=
  match s with
  | '(' :: t =>
    let ds := t.takeWhile isDigitC
    if ds.isEmpty then s
    else
      match t.drop ds.length with
      | ')' :: r => r.dropWhile isSpaceC
      | _ => s
  | _ => s

/-- `s.split(' - ', 1)[0]`: the segment before the first `" - "`. -/
def beforeFirst (sep : Str) : Str → Str
  | [] => []
  | c :: t => if leadsWith sep (c :: t) then [] else c :: beforeFirst sep t

/-- At-position matcher for `kw\.?\s+([^,\)]+)` (with `dotOpt = true`) and
for `kw\s+([^,\)]+)` (with `dotOpt = false`); returns (capture, rest after
the match).  An optional dot is consumed greedily; declining it cannot help,
since `\s+` never matches `'.'`. -/
def matchFeatBare (kw : Str) (dotOpt : Bool) (s : Str) : Option (Str × Str) :=
  if leadsWith kw s then
    let r0 := s.drop kw.length
    let r1 := if dotOpt then (match r0 with | '.' :: t => t | _ => r0) else r0
    let w := r1.takeWhile isSpaceC
    if w.isEmpty then none
    else
      let r2 := r1.drop w.length
      let cap := r2.takeWhile (fun c => !(c == ',' || c == ')'))
      if !cap.isEmpty then some (cap, r2.drop cap.length)
      else if 2 ≤ w.length then some (w.drop (w.length - 1), r2)
      else none
  else none

/-- At-position matcher for `\(kw\.?\s+([^)]+)\)`. -/
def matchFeatParen (kw : Str) (s : Str) : Option (Str × Str) :=
  match s with
  | '(' :: t =>
    if leadsWith kw t then
      let r0 := t.drop kw.length
      let r1 := match r0 with | '.' :: t2 => t2 | _ => r0
      let w := r1.takeWhile isSpaceC
      if w.isEmpty then none
      else
        let r2 := r1.drop w.length
        let cap := r2.takeWhile (fun c => !(c == ')'))
        match r2.drop cap.length with
        | ')' :: rest =>
          if !cap.isEmpty then some (cap, rest)
          else if 2 ≤ w.length then some (w.drop (w.length - 1), rest)
          else none
        | _ => none
    else none
  | _ => none

/-- `re.finditer` driver: collect non-overlapping matches left to right,
resuming after each match (all patterns here consume at least one character,
so fuel `|s| + 1` is enough). -/
def finditerAux (m : Str → Option (Str × Str)) : Nat → Str → List Str
  | 0, _ => []
  | _ + 1, [] => []
  | fuel + 1, c :: t =>
    match m (c :: t) with
    | some (cap, rest) => cap :: finditerAux m fuel rest
    | none => finditerAux m fuel t

def finditer (m : Str → Option (Str × Str)) (s : Str) : List Str :=
  finditerAux m (s.length + 1) s

/-- The `feat_patterns` list, in source order. -/
def featPatterns : List (Str → Option (Str × Str)) :=
  [matchFeatParen (str "feat"), matchFeatParen (str "ft"),
   matchFeatBare (str "feat") true, matchFeatBare (str "ft") true,
   matchFeatBare (str "featuring") false, matchFeatBare (str "with") false]

/-- Ordered insertion into the model of the `all_artists` set: the set's
CONTENTS are this deduplicated list; its iteration order is a separate
parameter wherever it matters. -/
def insertNew (l : List Str) (x : Str) : List Str :=
  if x ∈ l then l else l ++ [x]

/-- Candidates contributed by one title: the `" - "` main-artist split on the
original title, then the featuring patterns over the lower-cased title. -/
def artistsOfTitle (acc : List Str) (title : Str) : List Str :=
  let acc1 :=
    if containsSub (str " - ") title then
      insertNew acc (stripNumPrefixS (stripWs (beforeFirst (str " - ") title)))
    else acc
  let titleLower := lowerS title
  featPatterns.foldl
    (fun a pat => (finditer pat titleLower).foldl
      (fun a2 cap => insertNew a2 (stripNumPrefixS (stripWs cap))) a)
    acc1

/-- Contents of `all_artists` after the title scan (insertion order). -/
def derivedArtists (titles : List Str) : List Str :=
  titles.foldl artistsOfTitle []

/-- The fixed `stop_words` list. -/
def stopWords : List Str :=
  [str "songs", str "song", str "music", str "by", str "from", str "what",
   str "which", str "show", str "me", str "did", str "i", str "listen",
   str "to", str "today", str "yesterday", str "last", str "week", str "the",
   str "a", str "an", str "my", str "all", str "any", str "that", str "in",
   str "on"]

def queryTokens (qLower : Str) : List Str :=
  (splitWs qLower).filter (fun w => decide (w ∉ stopWords) && decide (2 < w.length))

/-- Token-overlap score: +2 per exact token match, +1 per either-direction
substring partial match. -/
def artistScore (qtoks atoks : List Str) : Nat :=
  qtoks.foldl
    (fun s qt => atoks.foldl
      (fun s2 atok =>
        if qt == atok then s2 + 2
        else if containsSub qt atok || containsSub atok qt then s2 + 1
        else s2) s)
    0

/-- The `for artist in all_artists` loop: exact-substring short-circuit,
otherwise best strict-improvement score, returned when `best_score >= 1`. -/
def artistLoop (qLower : Str) (qtoks : List Str) (best : Option Str)
    (bestScore : Nat) : List Str → Option Str
  | [] => if 1 ≤ bestScore then best else none
  | a :: rest =>
    if containsSub (lowerS a) qLower then some a
    else
      let sc := artistScore qtoks (splitWs (lowerS a))
      if bestScore < sc then artistLoop qLower qtoks (some a) sc rest
      else artistLoop qLower qtoks best bestScore rest

/-- `extract_artist_from_query`; `order` supplies the iteration order of the
`all_artists` set (CPython fixes it only per process run). -/
def extract_artist_from_query (order : List Str → List Str) (query : Str)
    (availableTitles : List Str) : Option Str :=
  let qLower := lowerS query
  let qtoks := queryTokens qLower
  if qtoks.isEmpty then none
  else artistLoop qLower qtoks none 0 (order (derivedArtists availableTitles))

/-! ## Retrieval filter stage and the early/empty responses of
`chat_structured` (lines 447-591)

Candidates are modelled as (document text, metadata) pairs; the source keeps
`docs_h`/`metas_h` as two equal-length parallel lists produced by the vector
store and indexes one with the other's enumeration index, which is the same
pairing.  The answer-composition section (lines 593-708) is outside every
claim and is not modelled: `chat_post` returns `none` when the source would
proceed into it. -/

structure ChatOut where
  success : Bool
  answer : Str
  sources : List (Str × Meta)
deriving DecidableEq, Repr

/-- Result of the retrieval-filter stage. -/
structure FilterOut where
  final : List (Str × Meta)
  artistFilter : Option Str
  dateFilter : Option Str
  domainFilter : Option Str
  isMusic : Bool
deriving DecidableEq, Repr

/-- Python post-filtering by date and domain (lines 509-536); month
granularity (`len == 7`) is a `startswith` prefix match, day granularity an
exact match. -/
def dateMatches (df : Str) (visitDate : Str) : Bool :=
  if df.length = 7 then leadsWith df visitDate else visitDate == df

def structuredPass (dateF domF : Option Str) (cands : List (Str × Meta)) :
    List (Str × Meta) :=
  if dateF.isSome || domF.isSome then
    cands.filter (fun c =>
      (match dateF with | some df => dateMatches df c.2.visit_date | none => true)
      && (match domF with | some dv => c.2.domain == dv | none => true))
  else cands

/-- The retrieval-filter stage (lines 447-448 and 508-584): structured
date/domain pass, artist resolution over the post-pass titles when
music-intent is active, the exclusion pass, truncation to `top_k`. -/
def filter_stage (today : PDate) (message : Str) (topK : Nat)
    (order : List Str → List Str) (cands : List (Str × Meta)) : FilterOut :=
  let qLower := lowerS message
  let dateF := extract_date today message
  let domF := extract_domain message
  let excM := exclude_music qLower
  let excY := exclude_youtube qLower
  let isMusic := is_music_query qLower
  let passed := structuredPass dateF domF cands
  let titles := passed.map (fun c => c.2.title)
  let artF := if isMusic then extract_artist_from_query order message titles else none
  let surviving := passed.filter (fun c => !should_exclude excM excY artF isMusic c.2)
  ⟨surviving.take topK, artF, dateF, domF, isMusic⟩

/-- `chat_structured` from the raw-candidate check through the empty-result
templates (lines 505-591); `none` means the source proceeds into the answer
composer. -/
def chat_post (today : PDate) (message : Str) (topK : Nat)
    (order : List Str → List Str) (cands : List (Str × Meta)) : Option ChatOut :=
  if cands.isEmpty then some ⟨true, str "No matching history found.", []⟩
  else
    let fr := filter_stage today message topK order cands
    if fr.final.isEmpty then
      if truthyOpt fr.artistFilter then
        some ⟨true, str "No songs featuring " ++ fr.artistFilter.getD []
                ++ str " found.", []⟩
      else if fr.dateFilter.isSome && fr.domainFilter.isSome then
        some ⟨true, str "No " ++ fr.domainFilter.getD [] ++ str " activity found from "
                ++ fr.dateFilter.getD [] ++ str ".", []⟩
      else some ⟨true, str "No matching results found.", []⟩
    else none

/-! ## Memory Distiller (`distill_and_store_memory`, lines 252-267)

The three effectful steps are passed in as `Except`-valued inputs: the
result of `chat_complete`, the embedding call, and the memory-collection
`add`.  Only the first is guarded by `try`/`except` in the source; the
returned `Bool` records whether a durable memory was stored. -/

def distill_and_store_memory (chatResult : Except Str Str)
    (embedResult : Str → Except Str (List Int))
    (addResult : Str → List Int → Except Str Unit) : Except Str Bool :=
  match chatResult with
  | .error _ => .ok false
  | .ok summary =>
    if summary.isEmpty || leadsWith (str "NONE") (upperS (stripWs summary)) then .ok false
    else do
      let vec ← embedResult summary
      let _ ← addResult summary vec
      return true

/-! ## Stable document identifier (`stable_doc_id`, lines 81-83)

`hash` is CPython's string hash, which is salted per process
(`PYTHONHASHSEED`): it is passed in as a parameter.  The visit-date part is
a pure function of the timestamp (given a fixed local timezone), so for the
collision analysis it is abstracted as a parameter as well. -/

structure HistoryItem where
  id : Str
  lastVisitTime : Int
  title : Str
  url : Str
  domain : Str
deriving DecidableEq, Repr

def stable_doc_id (hash : Str → Int) (visitDateOf : Int → Str)
    (item : HistoryItem) : Str :=
  str "hist:" ++ item.domain ++ str ":" ++ visitDateOf item.lastVisitTime
    ++ str ":" ++ natRepr ((hash item.url).natAbs % 10 ^ 9)

/-! ## Claims C1, C3, C4, C9 -/

/-- Claim C1 (counterexample).  Exclude-music is triggered by the question
"not song"; the candidate has title "hello", domain youtube.com and content
category Media, so the claim's condition (c) holds while (a) is false and no
music-like token occurs in the title — the claim says the candidate is
dropped, but `should_exclude` (via the `elif` chain of `music_exclusion`)
keeps it. -/
theorem c1_counterexample :
    exclude_music (lowerS (str "not song")) = true
      ∧ claimCondC ⟨str "hello", str "youtube.com", str "2025-01-01", str "Media"⟩ = true
      ∧ claimCondA ⟨str "hello", str "youtube.com", str "2025-01-01", str "Media"⟩ = false
      ∧ ytDomain ⟨str "hello", str "youtube.com", str "2025-01-01", str "Media"⟩ = true
      ∧ hasMusicTok ⟨str "hello", str "youtube.com", str "2025-01-01", str "Media"⟩ = false
      ∧ should_exclude (exclude_music (lowerS (str "not song")))
          (exclude_youtube (lowerS (str "not song"))) none
          (is_music_query (lowerS (str "not song")))
          ⟨str "hello", str "youtube.com", str "2025-01-01", str "Media"⟩ = false := by
  decide

/-- Claim C1 (amended).  Under exclude-music, a candidate is dropped by the
music-exclusion section exactly when (a) its lower-cased title contains a
music-indicator phrase, or (a) fails and its domain is a YouTube domain
whose title contains a music-like token, or (a) fails and its domain is NOT
a YouTube domain and its category is Media/Music Streaming: the three
conditions form an `if`/`elif`/`elif` chain, not a disjunction, so a
Media/Music-Streaming candidate on a YouTube domain without indicator
phrases or music-like tokens survives. -/
theorem c1_music_exclusion_elif_chain (m : Meta) :
    music_exclusion m
      = (claimCondA m
          || (!claimCondA m && ytDomain m && hasMusicTok m)
          || (!claimCondA m && !ytDomain m && claimCondC m)) := by
  simp only [music_exclusion, claimCondA, claimCondC, ytDomain, hasMusicTok]
  cases ha : musicIndicatorPhrases.any (fun p => containsSub p (lowerS m.title)) <;>
    cases hy : (lowerS m.domain == str "youtube.com"
        || lowerS m.domain == str "music.youtube.com") <;>
      cases hc : (lowerS m.content_category == str "media"
          || lowerS m.content_category == str "music streaming") <;>
        simp [ha, hy, hc]

/-- Claim C3 (counterexample).  With a successful chat completion producing
a durable summary, a failing embedding call propagates out of
`distill_and_store_memory`: only the completion call is inside the
`try`/`except`. -/
theorem c3_counterexample :
    (distill_and_store_memory (Except.ok (str "User likes jazz."))
        (fun _ => Except.error (str "embedding backend down"))
        (fun _ _ => Except.ok ())).isOk = false := by
  rfl

/-- Claim C3 (amended).  A failure of the chat-completion call is swallowed
and treated as no durable memory being stored, but failures of the embedding
call or of the memory-collection add are not caught and propagate to the
caller of `distill_and_store_memory`. -/
theorem c3_only_chat_failure_swallowed :
    (∀ (e : Str) (emb : Str → Except Str (List Int))
        (add : Str → List Int → Except Str Unit),
      distill_and_store_memory (Except.error e) emb add = Except.ok false)
    ∧ distill_and_store_memory (Except.ok (str "User prefers python."))
        (fun _ => Except.error (str "E1")) (fun _ _ => Except.ok ())
        = Except.error (str "E1")
    ∧ distill_and_store_memory (Except.ok (str "User prefers python."))
        (fun _ => Except.ok []) (fun _ _ => Except.error (str "E2"))
        = Except.error (str "E2") := by
  refine ⟨fun e emb add => rfl, rfl, rfl⟩

/-- Claim C4.  An exclusion phrase in the lower-cased question forces
`is_music_query` to false (the `not exclude_music` conjunct is checked
first), so exclude-music and music-intent are never both true. -/
theorem c4_exclusion_suppresses_music_intent (q : Str) :
    (exclude_music (lowerS q) = true → is_music_query (lowerS q) = false)
      ∧ ¬(exclude_music (lowerS q) = true ∧ is_music_query (lowerS q) = true) := by
  constructor
  · intro h
    simp [is_music_query, h]
  · rintro ⟨h1, h2⟩
    simp [is_music_query, h1] at h2

/-- Claim C4 (witness): "not songs by this artist" contains both the
exclusion phrase "not song" and the trigger words "song"/"artist", and
music-intent is false. -/
theorem c4_witness :
    exclude_music (lowerS (str "not songs by this artist")) = true
      ∧ containsSub (str "song") (lowerS (str "not songs by this artist")) = true
      ∧ is_music_query (lowerS (str "not songs by this artist")) = false :=
  ⟨by decide, by decide,
    (c4_exclusion_suppresses_music_intent (str "not songs by this artist")).1 (by decide)⟩

/-- Claim C9 (counterexample).  A URL containing both "github.com" and "aws"
but also "leetcode.com" is categorized as Programming Practice, because
the leetcode rule fires first in the cascade — so "every URL containing both
github.com and aws yields Code Repository" fails as stated. -/
theorem c9_counterexample :
    containsSub (str "github.com") (lowerS (str "https://leetcode.com/x/github.com/aws")) = true
      ∧ containsSub (str "aws") (lowerS (str "https://leetcode.com/x/github.com/aws")) = true
      ∧ categorize_url (str "https://leetcode.com/x/github.com/aws") []
          = str "Programming Practice"
      ∧ categorize_url (str "https://leetcode.com/x/github.com/aws") []
          ≠ str "Code Repository" := by
  decide

/-- Claim C9 (amended).  `categorize_url` is a pure function of (url, title)
equal to the ordered first-match cascade over `categoryRules` with fallback
General; and every URL containing both "github.com" and "aws" that does not
contain the higher-priority substring "leetcode.com" yields Code
Repository. -/
theorem c9_cascade_and_github_aws :
    (∀ url title, categorize_url url title = categorize_spec url)
      ∧ (∀ url title,
          containsSub (str "github.com") (lowerS url) = true →
          containsSub (str "aws") (lowerS url) = true →
          containsSub (str "leetcode.com") (lowerS url) = false →
          categorize_url url title = str "Code Repository") := by
  constructor
  · intro url title
    simp [categorize_url, categorize_spec, firstMatchCategory, categoryRules,
      Bool.or_assoc]
  · intro url title h1 h2 h3
    simp [categorize_url, h1, h3]

/-- Claim C9 (witness): concrete github+aws URL without "leetcode.com". -/
theorem c9_witness :
    containsSub (str "github.com") (lowerS (str "https://github.com/aws/aws-cli")) = true
      ∧ containsSub (str "aws") (lowerS (str "https://github.com/aws/aws-cli")) = true
      ∧ containsSub (str "leetcode.com") (lowerS (str "https://github.com/aws/aws-cli")) = false
      ∧ categorize_url (str "https://github.com/aws/aws-cli") [] = str "Code Repository" :=
  ⟨by decide, by decide, by decide,
    c9_cascade_and_github_aws.2 (str "https://github.com/aws/aws-cli") []
      (by decide) (by decide) (by decide)⟩

/-! ## Claim C6: empty-result templates -/

/-- Claim C6.  When the raw candidate list is nonempty but filtering leaves
no survivors, `chat_structured` returns success with empty sources and an
answer text that distinguishes three cases in priority order: a resolved
(truthy) artist filter, then date filter and domain filter both present,
then the generic message. -/
theorem c6_empty_result_templates (today : PDate) (msg : Str) (topK : Nat)
    (order : List Str → List Str) (cands : List (Str × Meta))
    (h1 : cands.isEmpty = false)
    (h2 : (filter_stage today msg topK order cands).final.isEmpty = true) :
    ∃ out, chat_post today msg topK order cands = some out
      ∧ out.success = true
      ∧ out.sources = []
      ∧ (truthyOpt (filter_stage today msg topK order cands).artistFilter = true →
          out.answer = str "No songs featuring "
            ++ ((filter_stage today msg topK order cands).artistFilter).getD []
            ++ str " found.")
      ∧ (truthyOpt (filter_stage today msg topK order cands).artistFilter = false →
          ((filter_stage today msg topK order cands).dateFilter.isSome
            && (filter_stage today msg topK order cands).domainFilter.isSome) = true →
          out.answer = str "No "
            ++ ((filter_stage today msg topK order cands).domainFilter).getD []
            ++ str " activity found from "
            ++ ((filter_stage today msg topK order cands).dateFilter).getD [] ++ str ".")
      ∧ (truthyOpt (filter_stage today msg topK order cands).artistFilter = false →
          ((filter_stage today msg topK order cands).dateFilter.isSome
            && (filter_stage today msg topK order cands).domainFilter.isSome) = false →
          out.answer = str "No matching results found.") := by
  refine ⟨⟨true,
    (if truthyOpt (filter_stage today msg topK order cands).artistFilter then
        str "No songs featuring "
          ++ ((filter_stage today msg topK order cands).artistFilter).getD []
          ++ str " found."
      else if (filter_stage today msg topK order cands).dateFilter.isSome
          && (filter_stage today msg topK order cands).domainFilter.isSome then
        str "No " ++ ((filter_stage today msg topK order cands).domainFilter).getD []
          ++ str " activity found from "
          ++ ((filter_stage today msg topK order cands).dateFilter).getD [] ++ str "."
      else str "No matching results found."), []⟩, ?_, rfl, rfl, ?_, ?_, ?_⟩
  · simp only [chat_post, h1, h2, Bool.false_eq_true, if_false, if_true]
    split
    · rfl
    · split <;> rfl
  · intro h
    simp [h]
  · intro h hdd
    simp [h, hdd]
  · intro h hdd
    simp [h, hdd]

/-- Claim C6 (witness): question "not song" with a single candidate whose
title carries "official video" on youtube.com — exclude-music drops it, no
artist/date/domain filter resolves, and the generic template is returned. -/
theorem c6_witness :
    ∃ out, chat_post ⟨2025, 10, 12⟩ (str "not song") 20 id
        [(str "doc1", ⟨str "A - B (Official Video)", str "youtube.com",
            str "2025-01-01", str "Media"⟩)] = some out
      ∧ out.success = true ∧ out.sources = []
      ∧ out.answer = str "No matching results found." := by
  obtain ⟨out, h1, h2, h3, _, _, h6⟩ :=
    c6_empty_result_templates ⟨2025, 10, 12⟩ (str "not song") 20 id
      [(str "doc1", ⟨str "A - B (Official Video)", str "youtube.com",
          str "2025-01-01", str "Media"⟩)] (by decide) (by decide)
  exact ⟨out, h1, h2, h3, h6 (by decide) (by decide)⟩

/-! ## Claim C7: artist exact-substring short-circuit -/

/-- If some element of the iteration list satisfies the exact-substring test
and every satisfying element equals `a`, the artist loop returns `a`
regardless of the running best-score accumulator. -/
lemma artistLoop_first_exact (qL : Str) (qtoks : List Str) :
    ∀ (l : List Str) (best : Option Str) (bs : Nat) (a : Str),
      a ∈ l → containsSub (lowerS a) qL = true →
      (∀ b ∈ l, containsSub (lowerS b) qL = true → b = a) →
      artistLoop qL qtoks best bs l = some a := by
  intro l
  induction l with
  | nil => intro best bs a ha _ _; cases ha
  | cons x rest ih =>
    intro best bs a ha hP huniq
    by_cases hx : containsSub (lowerS x) qL = true
    · have hxa : x = a := huniq x (List.mem_cons_self x rest) hx
      subst hxa
      simp only [artistLoop, hx, if_true]
    · have ha' : a ∈ rest := by
        rcases List.mem_cons.mp ha with rfl | h
        · exact absurd hP hx
        · exact h
      have huniq' : ∀ b ∈ rest, containsSub (lowerS b) qL = true → b = a :=
        fun b hb => huniq b (List.mem_cons_of_mem x hb)
      simp only [artistLoop, Bool.not_eq_true] at hx ⊢
      rw [hx]
      simp only [Bool.false_eq_true, if_false]
      split
      · exact ih _ _ _ ha' hP huniq'
      · exact ih _ _ _ ha' hP huniq'

/-- Claim C7.  On the title pool ["Artist A - Song One", "Artist B feat.
Artist A - Song Two"] the derived candidate-artist set is {"Artist A",
"Artist B feat. Artist A", "artist a - song two"}; only "Artist A" is (after
lower-casing) a substring of "songs by artist a", so the exact-substring
short-circuit returns "Artist A" under every iteration order of the set. -/
theorem c7_artist_resolver_exact_substring (order : List Str → List Str)
    (hperm : (order (derivedArtists [str "Artist A - Song One",
        str "Artist B feat. Artist A - Song Two"])).Perm
        (derivedArtists [str "Artist A - Song One",
          str "Artist B feat. Artist A - Song Two"])) :
    extract_artist_from_query order (str "songs by artist a")
      [str "Artist A - Song One", str "Artist B feat. Artist A - Song Two"]
      = some (str "Artist A") := by
  have hD : derivedArtists [str "Artist A - Song One",
      str "Artist B feat. Artist A - Song Two"]
      = [str "Artist A", str "Artist B feat. Artist A", str "artist a - song two"] := by
    decide
  have hmem : str "Artist A" ∈ order (derivedArtists [str "Artist A - Song One",
      str "Artist B feat. Artist A - Song Two"]) := by
    rw [hperm.mem_iff, hD]
    exact List.mem_cons_self _ _
  have huniq : ∀ b ∈ order (derivedArtists [str "Artist A - Song One",
      str "Artist B feat. Artist A - Song Two"]),
      containsSub (lowerS b) (lowerS (str "songs by artist a")) = true →
      b = str "Artist A" := by
    intro b hb hPb
    have hb2 : b ∈ [str "Artist A", str "Artist B feat. Artist A",
        str "artist a - song two"] := by
      rw [← hD, ← hperm.mem_iff]
      exact hb
    fin_cases hb2
    · rfl
    · exact absurd hPb (by decide)
    · exact absurd hPb (by decide)
  show extract_artist_from_query order (str "songs by artist a")
      [str "Artist A - Song One", str "Artist B feat. Artist A - Song Two"]
      = some (str "Artist A")
  unfold extract_artist_from_query
  rw [if_neg (by decide)]
  exact artistLoop_first_exact _ _ _ _ _ _ hmem (by decide) huniq

/-- Claim C7 (witness): the identity iteration order. -/
theorem c7_witness :
    extract_artist_from_query id (str "songs by artist a")
      [str "Artist A - Song One", str "Artist B feat. Artist A - Song Two"]
      = some (str "Artist A") :=
  c7_artist_resolver_exact_substring id (List.Perm.refl _)

/-! ## Claim C5: determinism of the retrieval-filter stage -/

/-- Claim C5 (counterexample).  With question "songs alpha gamma" and titles
"Alpha Beta - X" / "Gamma Delta - Y", NO candidate artist is an exact
substring of the question (so this is outside the claim's permitted
short-circuit-tie instability), yet the two artists tie on the token score
and the strict-improvement rule keeps whichever the set iteration yields
first: two valid iteration orders of the same artist set produce different
retrieval-filter outputs. -/
theorem c5_counterexample :
    (∀ a ∈ derivedArtists [str "Alpha Beta - X", str "Gamma Delta - Y"],
        containsSub (lowerS a) (lowerS (str "songs alpha gamma")) = false)
      ∧ (List.reverse (derivedArtists [str "Alpha Beta - X", str "Gamma Delta - Y"])).Perm
          (derivedArtists [str "Alpha Beta - X", str "Gamma Delta - Y"])
      ∧ filter_stage ⟨2025, 10, 12⟩ (str "songs alpha gamma") 20 id
          [(str "d1", ⟨str "Alpha Beta - X", str "example.com", str "2025-01-01",
              str "General"⟩),
           (str "d2", ⟨str "Gamma Delta - Y", str "example.com", str "2025-01-01",
              str "General"⟩)]
        ≠ filter_stage ⟨2025, 10, 12⟩ (str "songs alpha gamma") 20 List.reverse
          [(str "d1", ⟨str "Alpha Beta - X", str "example.com", str "2025-01-01",
              str "General"⟩),
           (str "d2", ⟨str "Gamma Delta - Y", str "example.com", str "2025-01-01",
              str "General"⟩)] := by
  refine ⟨by decide, by decide, by decide⟩

/-- Claim C5 (amended).  The retrieval-filter stage is a pure function of
its inputs and of the set iteration order, and the order enters only through
the Artist Resolver: whenever two iteration orders make
`extract_artist_from_query` agree, the whole stage output is identical.
(The resolver itself is order-sensitive both in the exact-substring
short-circuit tie AND in best-score ties, as the counterexample shows.) -/
theorem c5_order_enters_only_via_resolver (today : PDate) (msg : Str) (topK : Nat)
    (o1 o2 : List Str → List Str) (cands : List (Str × Meta))
    (h : ∀ titles : List Str,
      extract_artist_from_query o1 msg titles = extract_artist_from_query o2 msg titles) :
    filter_stage today msg topK o1 cands = filter_stage today msg topK o2 cands := by
  simp only [filter_stage, h]

/-- Claim C5 (witness): two equal orders trivially satisfy the agreement
hypothesis, and the outputs coincide on a concrete run. -/
theorem c5_witness :
    filter_stage ⟨2025, 10, 12⟩ (str "songs alpha gamma") 20 id
        [(str "d1", ⟨str "Alpha Beta - X", str "example.com", str "2025-01-01",
            str "General"⟩)]
      = filter_stage ⟨2025, 10, 12⟩ (str "songs alpha gamma") 20 id
        [(str "d1", ⟨str "Alpha Beta - X", str "example.com", str "2025-01-01",
            str "General"⟩)] :=
  c5_order_enters_only_via_resolver ⟨2025, 10, 12⟩ (str "songs alpha gamma") 20 id id
    [(str "d1", ⟨str "Alpha Beta - X", str "example.com", str "2025-01-01",
        str "General"⟩)] (fun _ => rfl)

/-! ## Claim C2: `stable_doc_id` -/

/-- Claim C2 (refutation).  `stable_doc_id` compresses the URL into
`abs(hash(url)) % 10**9`, so whatever the per-process string hash is, two
items agreeing on domain and visit timestamp but with different URLs must
collide: there are infinitely many URLs and only `10^9` residues.  Hence the
identifier does NOT collide only for records sharing domain, calendar day
and URL (and, separately, `hash` itself is salted per process, so the
identifier is not stable across runs either). -/
theorem c2_collision_inevitable (hash : Str → Int) (visitDateOf : Int → Str) :
    ∃ i1 i2 : HistoryItem,
      i1.domain = i2.domain ∧ i1.lastVisitTime = i2.lastVisitTime
        ∧ i1.url ≠ i2.url
        ∧ stable_doc_id hash visitDateOf i1 = stable_doc_id hash visitDateOf i2 := by
  obtain ⟨n, m, hnm, hf⟩ := Finite.exists_ne_map_eq_of_infinite
    (fun n : ℕ =>
      (⟨(hash (List.replicate (n + 1) 'a')).natAbs % 10 ^ 9,
        Nat.mod_lt _ (by norm_num)⟩ : Fin (10 ^ 9)))
  refine ⟨⟨[], 0, [], List.replicate (n + 1) 'a', str "example.com"⟩,
          ⟨[], 0, [], List.replicate (m + 1) 'a', str "example.com"⟩, rfl, rfl, ?_, ?_⟩
  · intro h
    have hlen := congrArg List.length h
    simp only [List.length_replicate] at hlen
    exact hnm (by omega)
  · have hmod : (hash (List.replicate (n + 1) 'a')).natAbs % 10 ^ 9
        = (hash (List.replicate (m + 1) 'a')).natAbs % 10 ^ 9 := congrArg Fin.val hf
    simp only [stable_doc_id, hmod]

/-! ## Claim C10: output shape of `extract_date` -/

def digitsOnly (s : Str) : Bool := s.all isDigitC

/-- Month-granularity shape: nonempty digit-string year, dash, two-digit
month. -/
def monthShaped (s : Str) : Prop :=
  ∃ y mo, digitsOnly y = true ∧ y ≠ [] ∧ digitsOnly mo = true ∧ mo.length = 2
    ∧ s = y ++ str "-" ++ mo

/-- Day-granularity shape: additionally a two-digit day component. -/
def dayShaped (s : Str) : Prop :=
  ∃ y mo d, digitsOnly y = true ∧ y ≠ [] ∧ digitsOnly mo = true ∧ mo.length = 2
    ∧ digitsOnly d = true ∧ d.length = 2
    ∧ s = y ++ str "-" ++ mo ++ str "-" ++ d

lemma digitC_isDigit (n : Nat) (h : n < 10) : isDigitC (digitC n) = true := by
  interval_cases n <;> decide

lemma natReprAux_digits : ∀ fuel n, n < fuel →
    digitsOnly (natReprAux fuel n) = true ∧ natReprAux fuel n ≠ [] := by
  intro fuel
  induction fuel with
  | zero => intro n hn; omega
  | succ f ih =>
    intro n hn
    by_cases h : n < 10
    · simp [natReprAux, h, digitsOnly, digitC_isDigit n h]
    · have hlt : n / 10 < n := Nat.div_lt_self (by omega) (by norm_num)
      obtain ⟨ha, hb⟩ := ih (n / 10) (by omega)
      have hm : isDigitC (digitC (n % 10)) = true :=
        digitC_isDigit _ (Nat.mod_lt _ (by norm_num))
      constructor
      · simp only [digitsOnly] at ha
        simp [natReprAux, h, digitsOnly, ha, hm]
      · simp only [natReprAux, h, if_false]
        intro hc
        exact absurd (List.append_eq_nil.mp hc).2 (by simp)

lemma natRepr_digits (n : Nat) : digitsOnly (natRepr n) = true ∧ natRepr n ≠ [] :=
  natReprAux_digits (n + 1) n (by omega)

lemma pad2_shape (n : Nat) (h : n ≤ 99) :
    digitsOnly (pad2 n) = true ∧ (pad2 n).length = 2 := by
  by_cases h10 : n < 10
  · simp [pad2, h10, digitsOnly, digitC_isDigit n h10,
      (by decide : isDigitC '0' = true)]
  · obtain ⟨k, rfl⟩ : ∃ k, n = k + 1 := ⟨n - 1, by omega⟩
    have hq : (k + 1) / 10 < 10 := by omega
    have hm : (k + 1) % 10 < 10 := Nat.mod_lt _ (by norm_num)
    simp [pad2, h10, natRepr, natReprAux, digitsOnly, hq, hm,
      digitC_isDigit _ hq, digitC_isDigit _ hm]

lemma fmtMonth_shaped (y num : Nat) (h : num ≤ 99) : monthShaped (fmtMonth y num) :=
  ⟨natRepr y, pad2 num, (natRepr_digits y).1, (natRepr_digits y).2,
    (pad2_shape num h).1, (pad2_shape num h).2, rfl⟩

lemma fmtDay_shaped (y num d : Nat) (h1 : num ≤ 99) (h2 : d ≤ 99) :
    dayShaped (fmtDay y num d) :=
  ⟨natRepr y, pad2 num, pad2 d, (natRepr_digits y).1, (natRepr_digits y).2,
    (pad2_shape num h1).1, (pad2_shape num h1).2,
    (pad2_shape d h2).1, (pad2_shape d h2).2, rfl⟩

lemma charVal_le9 (c : Char) (h : isDigitC c = true) : charVal c ≤ 9 := by
  simp only [isDigitC, Bool.and_eq_true, decide_eq_true_eq] at h
  unfold charVal
  omega

lemma search_some_exists {α : Type} (m : Str → Option α) :
    ∀ (q : Str) (v : α), search m q = some v → ∃ t, m t = some v := by
  intro q
  induction q with
  | nil => intro v h; exact ⟨[], h⟩
  | cons c t ih =>
    intro v h
    unfold search at h
    cases hm : m (c :: t) with
    | some x =>
      rw [hm] at h
      simp only [Option.orElse] at h
      exact ⟨c :: t, hm.trans h⟩
    | none =>
      rw [hm] at h
      simp only [Option.orElse] at h
      exact ih v h

lemma matchNameDay_le (kw t : Str) (d : Nat) (h : matchNameDay kw t = some d) :
    d ≤ 99 := by
  unfold matchNameDay at h
  by_cases h1 : leadsWith kw t = true
  · rw [if_pos h1] at h
    cases hdrop : (t.drop kw.length).dropWhile isSpaceC with
    | nil => rw [hdrop] at h; cases h
    | cons a rest =>
      rw [hdrop] at h
      dsimp only at h
      by_cases ha : isDigitC a = true
      · rw [if_pos ha] at h
        cases rest with
        | nil =>
          injection h with h
          have := charVal_le9 a ha
          omega
        | cons b r2 =>
          dsimp only at h
          by_cases hb : isDigitC b = true
          · rw [if_pos hb] at h
            injection h with h
            have h2 := charVal_le9 a ha
            have h3 := charVal_le9 b hb
            omega
          · rw [if_neg hb] at h
            injection h with h
            have := charVal_le9 a ha
            omega
      · rw [if_neg ha] at h; cases h
  · rw [if_neg h1] at h; cases h

lemma matchDayName_le (kw t : Str) (d : Nat) (h : matchDayName kw t = some d) :
    d ≤ 99 := by
  cases t with
  | nil => cases h
  | cons a rest =>
    unfold matchDayName at h
    dsimp only at h
    by_cases ha : isDigitC a = true
    · rw [if_pos ha] at h
      cases rest with
      | nil =>
        dsimp only at h
        by_cases hkw : leadsWith kw ([] : Str) = true
        · rw [if_pos hkw] at h
          injection h with h
          have := charVal_le9 a ha
          omega
        · rw [if_neg hkw] at h; cases h
      | cons b rest2 =>
        dsimp only at h
        by_cases h2 : (isDigitC b && leadsWith kw (rest2.dropWhile isSpaceC)) = true
        · rw [if_pos h2] at h
          injection h with h
          have h3 := charVal_le9 a ha
          have h4 : isDigitC b = true := by
            simp only [Bool.and_eq_true] at h2
            exact h2.1
          have h5 := charVal_le9 b h4
          omega
        · rw [if_neg h2] at h
          by_cases h5 : leadsWith kw ((b :: rest2).dropWhile isSpaceC) = true
          · rw [if_pos h5] at h
            injection h with h
            have := charVal_le9 a ha
            omega
          · rw [if_neg h5] at h; cases h
    · rw [if_neg ha] at h; cases h

lemma zfill2_shape (x : Str) (hd : digitsOnly x = true) (hl : x.length = 1 ∨ x.length = 2) :
    digitsOnly (if x.length = 1 then '0' :: x else x) = true
      ∧ (if x.length = 1 then '0' :: x else x).length = 2 := by
  rcases hl with h | h
  · rw [if_pos h]
    refine ⟨?_, by simp [h]⟩
    simp only [digitsOnly, List.all_cons] at hd ⊢
    simp [hd, (by decide : isDigitC '0' = true)]
  · rw [if_neg (by omega)]
    exact ⟨hd, h⟩

lemma matchIsoDay_shape (y mo t r : Str)
    (hy : digitsOnly y = true) (hy2 : y ≠ [])
    (hmo : digitsOnly mo = true) (hml : mo.length = 1 ∨ mo.length = 2)
    (h : matchIsoDay y mo t = some r) : dayShaped r := by
  cases t with
  | nil => cases h
  | cons d1 rest =>
    unfold matchIsoDay at h
    dsimp only at h
    by_cases h1 : isDigitC d1 = true
    · rw [if_pos h1] at h
      have hds : ∃ ds : Str, digitsOnly ds = true ∧ (ds.length = 1 ∨ ds.length = 2)
          ∧ r = y ++ str "-" ++ (if mo.length = 1 then '0' :: mo else mo)
              ++ str "-" ++ (if ds.length = 1 then '0' :: ds else ds) := by
        cases rest with
        | nil =>
          dsimp only at h
          injection h with h
          exact ⟨[d1], by simp [digitsOnly, h1], Or.inl rfl, h.symm⟩
        | cons d2 rest2 =>
          dsimp only at h
          by_cases h2 : isDigitC d2 = true
          · rw [if_pos h2] at h
            injection h with h
            exact ⟨[d1, d2], by simp [digitsOnly, h1, h2], Or.inr rfl, h.symm⟩
          · rw [if_neg h2] at h
            injection h with h
            exact ⟨[d1], by simp [digitsOnly, h1], Or.inl rfl, h.symm⟩
      obtain ⟨ds, hds1, hds2, hds3⟩ := hds
      exact ⟨y, (if mo.length = 1 then '0' :: mo else mo),
        (if ds.length = 1 then '0' :: ds else ds), hy, hy2,
        (zfill2_shape mo hmo hml).1, (zfill2_shape mo hmo hml).2,
        (zfill2_shape ds hds1 hds2).1, (zfill2_shape ds hds1 hds2).2, hds3⟩
    · rw [if_neg h1] at h
      cases h

lemma matchIso_shape (t r : Str) (h : matchIso t = some r) : dayShaped r := by
  rcases t with _ | ⟨y1, t⟩
  · simp [matchIso] at h
  rcases t with _ | ⟨y2, t⟩
  · simp [matchIso] at h
  rcases t with _ | ⟨y3, t⟩
  · simp [matchIso] at h
  rcases t with _ | ⟨y4, t⟩
  · simp [matchIso] at h
  rcases t with _ | ⟨c5, t⟩
  · simp [matchIso] at h
  rcases t with _ | ⟨m1, rest⟩
  · simp [matchIso] at h
  unfold matchIso at h
  dsimp only at h
  by_cases hc : (isDigitC y1 && isDigitC y2 && isDigitC y3 && isDigitC y4
      && c5 == '-' && isDigitC m1) = true
  · rw [if_pos hc] at h
    have hc2 := hc
    simp only [Bool.and_eq_true] at hc2
    obtain ⟨⟨⟨⟨⟨ha1, ha2⟩, ha3⟩, ha4⟩, hdash⟩, hm1⟩ := hc2
    have hy : digitsOnly [y1, y2, y3, y4] = true := by
      simp [digitsOnly, ha1, ha2, ha3, ha4]
    cases hfirst : (match rest with
       | m2 :: c7 :: r4 =>
         if isDigitC m2 && c7 == '-' then matchIsoDay [y1, y2, y3, y4] [m1, m2] r4
         else none
       | _ => none) with
    | some x =>
      rw [hfirst] at h
      simp only [Option.orElse] at h
      injection h with hxr
      subst hxr
      rcases rest with _ | ⟨m2, _ | ⟨c7, r4⟩⟩
      · dsimp only at hfirst
        cases hfirst
      · dsimp only at hfirst
        cases hfirst
      · dsimp only at hfirst
        by_cases h2 : (isDigitC m2 && c7 == '-') = true
        · rw [if_pos h2] at hfirst
          have hm2 : isDigitC m2 = true := by
            simp only [Bool.and_eq_true] at h2
            exact h2.1
          exact matchIsoDay_shape [y1, y2, y3, y4] [m1, m2] r4 _ hy (by simp)
            (by simp [digitsOnly, hm1, hm2]) (Or.inr rfl) hfirst
        · rw [if_neg h2] at hfirst
          cases hfirst
    | none =>
      rw [hfirst] at h
      simp only [Option.orElse] at h
      rcases rest with _ | ⟨c6, r4⟩
      · dsimp only at h
        cases h
      · dsimp only at h
        by_cases h3 : (c6 == '-') = true
        · rw [if_pos h3] at h
          exact matchIsoDay_shape [y1, y2, y3, y4] [m1] r4 r hy (by simp)
            (by simp [digitsOnly, hm1]) (Or.inl rfl) h
        · rw [if_neg h3] at h
          cases h
  · rw [if_neg hc] at h
    cases h

lemma matchUsYear_shape (mo d t r : Str)
    (hmo : digitsOnly mo = true) (hml : mo.length = 1 ∨ mo.length = 2)
    (hd : digitsOnly d = true) (hdl : d.length = 1 ∨ d.length = 2)
    (h : matchUsYear mo d t = some r) : dayShaped r := by
  rcases t with _ | ⟨y1, _ | ⟨y2, _ | ⟨y3, _ | ⟨y4, rest⟩⟩⟩⟩
  · cases h
  · cases h
  · cases h
  · cases h
  unfold matchUsYear at h
  dsimp only at h
  by_cases hc : (isDigitC y1 && isDigitC y2 && isDigitC y3 && isDigitC y4) = true
  · rw [if_pos hc] at h
    injection h with h
    have hc2 := hc
    simp only [Bool.and_eq_true] at hc2
    obtain ⟨⟨⟨ha1, ha2⟩, ha3⟩, ha4⟩ := hc2
    exact ⟨[y1, y2, y3, y4], (if mo.length = 1 then '0' :: mo else mo),
      (if d.length = 1 then '0' :: d else d),
      by simp [digitsOnly, ha1, ha2, ha3, ha4], by simp,
      (zfill2_shape mo hmo hml).1, (zfill2_shape mo hmo hml).2,
      (zfill2_shape d hd hdl).1, (zfill2_shape d hd hdl).2, h.symm⟩
  · rw [if_neg hc] at h
    cases h

lemma matchUsDay_shape (mo t r : Str)
    (hmo : digitsOnly mo = true) (hml : mo.length = 1 ∨ mo.length = 2)
    (h : matchUsDay mo t = some r) : dayShaped r := by
  cases t with
  | nil => cases h
  | cons d1 rest =>
    unfold matchUsDay at h
    dsimp only at h
    by_cases h1 : isDigitC d1 = true
    · rw [if_pos h1] at h
      cases hfirst : (match rest with
         | d2 :: c :: r2 =>
           if isDigitC d2 && c == '/' then matchUsYear mo [d1, d2] r2 else none
         | _ => none) with
      | some x =>
        rw [hfirst] at h
        simp only [Option.orElse] at h
        injection h with hxr
        subst hxr
        rcases rest with _ | ⟨d2, _ | ⟨c, r2⟩⟩
        · dsimp only at hfirst
          cases hfirst
        · dsimp only at hfirst
          cases hfirst
        · dsimp only at hfirst
          by_cases h2 : (isDigitC d2 && c == '/') = true
          · rw [if_pos h2] at hfirst
            have hd2 : isDigitC d2 = true := by
              simp only [Bool.and_eq_true] at h2
              exact h2.1
            exact matchUsYear_shape mo [d1, d2] r2 _ hmo hml
              (by simp [digitsOnly, h1, hd2]) (Or.inr rfl) hfirst
          · rw [if_neg h2] at hfirst
            cases hfirst
      | none =>
        rw [hfirst] at h
        simp only [Option.orElse] at h
        rcases rest with _ | ⟨c, r2⟩
        · dsimp only at h
          cases h
        · dsimp only at h
          by_cases h3 : (c == '/') = true
          · rw [if_pos h3] at h
            exact matchUsYear_shape mo [d1] r2 r hmo hml
              (by simp [digitsOnly, h1]) (Or.inl rfl) h
          · rw [if_neg h3] at h
            cases h
    · rw [if_neg h1] at h
      cases h

lemma matchUs_shape (t r : Str) (h : matchUs t = some r) : dayShaped r := by
  cases t with
  | nil => cases h
  | cons m1 rest =>
    unfold matchUs at h
    dsimp only at h
    by_cases h1 : isDigitC m1 = true
    · rw [if_pos h1] at h
      cases hfirst : (match rest with
         | m2 :: c :: r2 =>
           if isDigitC m2 && c == '/' then matchUsDay [m1, m2] r2 else none
         | _ => none) with
      | some x =>
        rw [hfirst] at h
        simp only [Option.orElse] at h
        injection h with hxr
        subst hxr
        rcases rest with _ | ⟨m2, _ | ⟨c, r2⟩⟩
        · dsimp only at hfirst
          cases hfirst
        · dsimp only at hfirst
          cases hfirst
        · dsimp only at hfirst
          by_cases h2 : (isDigitC m2 && c == '/') = true
          · rw [if_pos h2] at hfirst
            have hm2 : isDigitC m2 = true := by
              simp only [Bool.and_eq_true] at h2
              exact h2.1
            exact matchUsDay_shape [m1, m2] r2 _
              (by simp [digitsOnly, h1, hm2]) (Or.inr rfl) hfirst
          · rw [if_neg h2] at hfirst
            cases hfirst
      | none =>
        rw [hfirst] at h
        simp only [Option.orElse] at h
        rcases rest with _ | ⟨c, r2⟩
        · dsimp only at h
          cases h
        · dsimp only at h
          by_cases h3 : (c == '/') = true
          · rw [if_pos h3] at h
            exact matchUsDay_shape [m1] r2 r (by simp [digitsOnly, h1]) (Or.inl rfl) h
          · rw [if_neg h3] at h
            cases h
    · rw [if_neg h1] at h
      cases h

lemma monthsLoop_shape (cy : Nat) (q : Str) :
    ∀ keys : List (Str × Nat), (∀ p ∈ keys, p.2 ≤ 99) →
      ∀ r, monthsLoop cy q keys = some r → monthShaped r ∨ dayShaped r := by
  intro keys
  induction keys with
  | nil => intro _ r h; cases h
  | cons p rest ih =>
    intro hk r h
    obtain ⟨name, num⟩ := p
    have hnum : num ≤ 99 := hk (name, num) (List.mem_cons_self _ _)
    unfold monthsLoop at h
    cases h1 : search (matchNameYear name) q with
    | some y =>
      rw [h1] at h
      dsimp only at h
      injection h with h
      subst h
      exact Or.inl (fmtMonth_shaped y num hnum)
    | none =>
      rw [h1] at h
      dsimp only at h
      cases h2 : search (matchNameDay name) q with
      | some d =>
        rw [h2] at h
        dsimp only at h
        injection h with h
        subst h
        obtain ⟨t, ht⟩ := search_some_exists _ _ _ h2
        exact Or.inr (fmtDay_shaped cy num d hnum (matchNameDay_le name t d ht))
      | none =>
        rw [h2] at h
        dsimp only at h
        cases h3 : search (matchDayName name) q with
        | some d =>
          rw [h3] at h
          dsimp only at h
          injection h with h
          subst h
          obtain ⟨t, ht⟩ := search_some_exists _ _ _ h3
          exact Or.inr (fmtDay_shaped cy num d hnum (matchDayName_le name t d ht))
        | none =>
          rw [h3] at h
          dsimp only at h
          by_cases h4 : (containsSub name q && decide (3 < name.length)) = true
          · rw [if_pos h4] at h
            injection h with h
            subst h
            exact Or.inl (fmtMonth_shaped cy num hnum)
          · rw [if_neg h4] at h
            exact ih (fun p hp => hk p (List.mem_cons_of_mem _ hp)) r h

lemma daysInMonth_le31 (y m : Nat) : daysInMonth y m ≤ 31 := by
  unfold daysInMonth
  split_ifs <;> norm_num

lemma prevDay_bounds (d : PDate) (h1 : d.month ≤ 12) (h2 : d.day ≤ 31) :
    (prevDay d).month ≤ 12 ∧ (prevDay d).day ≤ 31 := by
  unfold prevDay
  split_ifs with hh1 hh2
  · constructor
    · exact h1
    · show d.day - 1 ≤ 31
      omega
  · constructor
    · show d.month - 1 ≤ 12
      omega
    · exact daysInMonth_le31 _ _
  · exact ⟨by norm_num, by norm_num⟩

lemma minusDays_bounds : ∀ (n : Nat) (d : PDate), d.month ≤ 12 → d.day ≤ 31 →
    (minusDays n d).month ≤ 12 ∧ (minusDays n d).day ≤ 31 := by
  intro n
  induction n with
  | zero => intro d h1 h2; exact ⟨h1, h2⟩
  | succ k ih =>
    intro d h1 h2
    have hb := prevDay_bounds d h1 h2
    exact ih (prevDay d) hb.1 hb.2

/-- The claim's stricter month shape with a four-digit year (YYYY-MM). -/
def claimMonthShape (s : Str) : Prop :=
  ∃ y mo, y.length = 4 ∧ digitsOnly y = true ∧ mo.length = 2 ∧ digitsOnly mo = true
    ∧ s = y ++ str "-" ++ mo

/-- The claim's stricter day shape with a four-digit year (YYYY-MM-DD). -/
def claimDayShape (s : Str) : Prop :=
  ∃ y mo d, y.length = 4 ∧ digitsOnly y = true ∧ mo.length = 2 ∧ digitsOnly mo = true
    ∧ d.length = 2 ∧ digitsOnly d = true ∧ s = y ++ str "-" ++ mo ++ str "-" ++ d

/-- Claim C10 (counterexample).  On "march 0099" the `name\s+(\d{4})` rule
parses the year 0099, `int` drops the leading zeros and the f-string prints
"99-03" — a two-digit year component, so the result does not have the
claimed YYYY-MM or YYYY-MM-DD shape. -/
theorem c10_counterexample :
    extract_date ⟨2025, 10, 12⟩ (str "march 0099") = some (str "99-03")
      ∧ ¬claimMonthShape (str "99-03") ∧ ¬claimDayShape (str "99-03") := by
  refine ⟨by decide, ?_, ?_⟩
  · rintro ⟨y, mo, hy, _, hmo, _, heq⟩
    have hlen := congrArg List.length heq
    simp [hy, hmo, str] at hlen
  · rintro ⟨y, mo, d, hy, _, hmo, _, hd, _, heq⟩
    have hlen := congrArg List.length heq
    simp [hy, hmo, hd, str] at hlen

/-- Claim C10 (amended).  For every input and every valid "now", the value
of `extract_date` is either `none`, or a month-granularity string
`<digits>-MM`, or a day-granularity string `<digits>-MM-DD`, where the month
and day components are zero-padded two-digit digit strings but the year
component is the unpadded decimal year (usually four digits, fewer when a
zero-padded year such as 0099 was parsed).  The result need not be a valid
calendar date: "march 99" yields day component 99. -/
theorem c10_extract_date_shape (today : PDate) (hm : today.month ≤ 12)
    (hd : today.day ≤ 31) :
    (∀ q : Str, extract_date today q = none
      ∨ ∃ s, extract_date today q = some s ∧ (monthShaped s ∨ dayShaped s))
    ∧ extract_date today (str "march 99") = some (fmtDay today.year 3 99) := by
  have hkeys : ∀ p ∈ monthKeys, p.2 ≤ 99 := by decide
  constructor
  · intro q
    unfold extract_date
    by_cases h1 : containsSub (str "yesterday") (lowerS q) = true
    · rw [if_pos h1]
      refine Or.inr ⟨_, rfl, Or.inr ?_⟩
      have hb := prevDay_bounds today hm hd
      exact fmtDay_shaped _ _ _ (by omega) (by omega)
    · rw [if_neg h1]
      by_cases h2 : containsSub (str "today") (lowerS q) = true
      · rw [if_pos h2]
        exact Or.inr ⟨_, rfl, Or.inr (fmtDay_shaped _ _ _ (by omega) (by omega))⟩
      · rw [if_neg h2]
        by_cases h3 : containsSub (str "last week") (lowerS q) = true
        · rw [if_pos h3]
          refine Or.inr ⟨_, rfl, Or.inr ?_⟩
          have hb := minusDays_bounds 7 today hm hd
          exact fmtDay_shaped _ _ _ (by omega) (by omega)
        · rw [if_neg h3]
          by_cases h4 : containsSub (str "this week") (lowerS q) = true
          · rw [if_pos h4]
            exact Or.inr ⟨_, rfl, Or.inr (fmtDay_shaped _ _ _ (by omega) (by omega))⟩
          · rw [if_neg h4]
            cases h5 : monthsLoop today.year (lowerS q) monthKeys with
            | some r =>
              exact Or.inr ⟨r, rfl, monthsLoop_shape _ _ monthKeys hkeys r h5⟩
            | none =>
              dsimp only
              cases h6 : search matchIso (lowerS q) with
              | some r =>
                obtain ⟨t, ht⟩ := search_some_exists _ _ _ h6
                exact Or.inr ⟨r, rfl, Or.inr (matchIso_shape t r ht)⟩
              | none =>
                dsimp only
                cases h7 : search matchUs (lowerS q) with
                | some r =>
                  obtain ⟨t, ht⟩ := search_some_exists _ _ _ h7
                  exact Or.inr ⟨r, rfl, Or.inr (matchUs_shape t r ht)⟩
                | none =>
                  exact Or.inl rfl
  · rfl

/-- Claim C10 (witness): instantiated at a concrete "now". -/
theorem c10_witness :
    extract_date ⟨2025, 10, 12⟩ (str "march 99") = some (str "2025-03-99") := by
  have h := (c10_extract_date_shape ⟨2025, 10, 12⟩ (by decide) (by decide)).2
  rw [h]
  decide

/-! ## Claim C8: date-expansion round trip

The query-expansion step (lines 450-460) re-parses the extracted
`date_filter` with `strptime('%Y-%m-%d')` (month granularity first gets
`"-01"` appended) and appends the human-readable `strftime` rendering to the
expansion text; a parse failure skips the append.  `strptime` accepts
exactly a four-digit year ≥ 1, a month 1..12 and a calendar-valid day. -/

def digitsVal (s : Str) : Nat := s.foldl (fun a c => a * 10 + charVal c) 0

/-- Split a string on the character `'-'` (used only to model `strptime`'s
field separation). -/
def splitDashAux : Str → Str → List Str
  | [], acc => [acc.reverse]
  | c :: t, acc => if c == '-' then acc.reverse :: splitDashAux t [] else splitDashAux t (c :: acc)

def splitDash (s : Str) : List Str := splitDashAux s []

/-- `datetime.strptime(s, '%Y-%m-%d')`, returning the parsed date. -/
def strptimeYMD (s : Str) : Option PDate :=
  match splitDash s with
  | [ys, ms, ds] =>
    if ys.length = 4 && digitsOnly ys && decide (1 ≤ ms.length) && decide (ms.length ≤ 2)
        && digitsOnly ms && decide (1 ≤ ds.length) && decide (ds.length ≤ 2)
        && digitsOnly ds then
      let y := digitsVal ys
      let m := digitsVal ms
      let d := digitsVal ds
      if 1 ≤ y && 1 ≤ m && m ≤ 12 && 1 ≤ d && d ≤ daysInMonth y m then
        some ⟨y, m, d⟩
      else none
    else none
  | _ => none

/-- The date-rendering step of `chat_structured` (lines 451-460): month
granularity (`len == 7`) renders `'%B %Y'`, day granularity
`'%A %B %d %Y'`; a `strptime` failure produces no expansion text. -/
def renderExpansion (df : Str) : Option Str :=
  if df.length = 7 then
    match strptimeYMD (df ++ str "-01") with
    | some dt => some (renderMonth dt.year dt.month)
    | none => none
  else
    match strptimeYMD df with
    | some dt => some (renderDay dt.year dt.month dt.day)
    | none => none

/-- Characters a day/year digit tail may contain. -/
def dsOnly (s : Str) : Bool := s.all (fun c => isDigitC c || isSpaceC c)

def lettersOnly (k : Str) : Bool := k.all (fun c => !isDigitC c && !isSpaceC c)

/-- The character right after an occurrence of `k` at the start of `t` is
not whitespace (or `t` ends there, in which case the digit tail follows). -/
def afterNonSpace (k t : Str) : Bool :=
  match t.drop k.length with
  | c :: _ => !isSpaceC c
  | [] => true

/-- Every suffix of `A` that starts with `k` either is the designated
`k ++ " "` occurrence (followed by the day digits) or is followed by a
non-whitespace character, so `name\s+(\d{4})` cannot match there. -/
def tailsCond (k A : Str) : Bool :=
  A.tails.all (fun t => !leadsWith k t || t == k ++ [' '] || afterNonSpace k t)

/-- Strong failure condition for a non-winning month key `k` on the
concrete prefix `A`: `m_year` cannot match, and the bare-name month rule is
blocked (short key or no occurrence at all). -/
def EarlyOk (k A : Str) : Bool :=
  !k.isEmpty && lettersOnly k && tailsCond k A
    && (decide (k.length ≤ 3) || !containsSub k A)

lemma digit_not_space (c : Char) (h : isDigitC c = true) : isSpaceC c = false := by
  by_contra hs
  rw [Bool.not_eq_false] at hs
  have hs2 : ((((c = ' ' ∨ c = '\t') ∨ c = '\n') ∨ c = '\r') ∨ c = '\x0b') ∨ c = '\x0c' := by
    simpa [isSpaceC] using hs
  rcases hs2 with ((((h1 | h1) | h1) | h1) | h1) | h1 <;> (subst h1; exact absurd h (by decide))

lemma toLower_digit (c : Char) (h : isDigitC c = true) : c.toLower = c := by
  simp only [isDigitC, Bool.and_eq_true, decide_eq_true_eq] at h
  unfold Char.toLower
  rw [if_neg (by omega)]

lemma lowerS_digits (s : Str) (h : digitsOnly s = true) : lowerS s = s := by
  induction s with
  | nil => rfl
  | cons c t ih =>
    simp only [digitsOnly, List.all_cons, Bool.and_eq_true] at h
    simp only [lowerS, List.map_cons]
    rw [toLower_digit c h.1]
    have ht := ih (by simp [digitsOnly, h.2])
    simp only [lowerS] at ht
    rw [ht]

lemma leadsWith_length_le (k t : Str) (h : leadsWith k t = true) : k.length ≤ t.length := by
  induction k generalizing t with
  | nil => simp
  | cons a as ih =>
    cases t with
    | nil => cases h
    | cons b bs =>
      simp only [leadsWith, Bool.and_eq_true] at h
      have := ih bs h.2
      simp only [List.length_cons]
      omega

lemma leadsWith_self_append (k r : Str) : leadsWith k (k ++ r) = true := by
  induction k with
  | nil => rfl
  | cons a as ih => simp [leadsWith, ih]

lemma leadsWith_append_left (k : Str) : ∀ (t ds : Str), k.length ≤ t.length →
    leadsWith k (t ++ ds) = leadsWith k t := by
  induction k with
  | nil => intro t ds _; rfl
  | cons a as ih =>
    intro t ds h
    cases t with
    | nil => simp at h
    | cons b bs =>
      have hlen : as.length ≤ bs.length := by
        simp only [List.length_cons] at h
        omega
      simp only [List.cons_append, leadsWith, List.append_eq, ih bs ds hlen]

lemma leadsWith_cross_false (k : Str) : ∀ (t ds : Str), lettersOnly k = true →
    t.length < k.length → dsOnly ds = true → leadsWith k (t ++ ds) = false := by
  induction k with
  | nil => intro t ds _ ht _; simp at ht
  | cons a as ih =>
    intro t ds hl ht hds
    rw [lettersOnly, List.all_cons, Bool.and_eq_true] at hl
    obtain ⟨hla, hlas⟩ := hl
    rw [Bool.and_eq_true] at hla
    have ha1 : isDigitC a = false := by
      cases hx : isDigitC a
      · rfl
      · rw [hx] at hla; exact absurd hla.1 (by decide)
    have ha2 : isSpaceC a = false := by
      cases hx : isSpaceC a
      · rfl
      · rw [hx] at hla; exact absurd hla.2 (by decide)
    cases t with
    | nil =>
      cases ds with
      | nil => rfl
      | cons c cs =>
        rw [List.nil_append, leadsWith]
        have hc : isDigitC c = true ∨ isSpaceC c = true := by
          rw [dsOnly, List.all_cons, Bool.and_eq_true] at hds
          simpa using hds.1
        have hac : (a == c) = false := by
          rw [beq_eq_false_iff_ne]
          intro he
          subst he
          rcases hc with h1 | h1
          · rw [ha1] at h1; cases h1
          · rw [ha2] at h1; cases h1
        simp [hac]
    | cons b bs =>
      rw [List.cons_append, leadsWith]
      by_cases hab : (a == b) = true
      · have hrec : leadsWith as (bs ++ ds) = false :=
          ih bs ds hlas (by simp only [List.length_cons] at ht; omega) hds
        simp [hrec]
      · rw [Bool.not_eq_true] at hab
        simp [hab]

lemma search_none_of_all {α : Type} (m : Str → Option α) :
    ∀ s : Str, (∀ t ∈ s.tails, m t = none) → search m s = none := by
  intro s
  induction s with
  | nil => intro h; exact h [] (by simp)
  | cons c t ih =>
    intro h
    unfold search
    rw [h (c :: t) (by rw [List.tails_cons]; exact List.mem_cons_self _ _)]
    simp only [Option.orElse]
    exact ih fun u hu => h u (by rw [List.tails_cons]; exact List.mem_cons_of_mem _ hu)

lemma search_isSome_of_mem {α : Type} (m : Str → Option α) :
    ∀ (s t : Str), t ∈ s.tails → (m t).isSome = true → (search m s).isSome = true := by
  intro s
  induction s with
  | nil =>
    intro t ht hm
    rw [List.mem_tails] at ht
    rw [List.suffix_nil.mp ht] at hm
    exact hm
  | cons c u ih =>
    intro t ht hm
    rw [List.tails_cons] at ht
    unfold search
    cases hx : m (c :: u) with
    | some v => simp [Option.orElse]
    | none =>
      simp only [Option.orElse]
      rcases List.mem_cons.mp ht with rfl | h2
      · rw [hx] at hm; cases hm
      · exact ih t h2 hm

lemma tails_append_cases (ds : Str) :
    ∀ (A t : Str), t ∈ (A ++ ds).tails →
      (∃ u ∈ A.tails, u ≠ [] ∧ t = u ++ ds) ∨ t ∈ ds.tails := by
  intro A
  induction A with
  | nil => intro t ht; exact Or.inr ht
  | cons a A2 ih =>
    intro t ht
    rw [List.cons_append, List.tails_cons] at ht
    rcases List.mem_cons.mp ht with rfl | h2
    · exact Or.inl ⟨a :: A2, by rw [List.tails_cons]; exact List.mem_cons_self _ _,
        by simp, by rw [List.cons_append]⟩
    · rcases ih t h2 with ⟨u, hu1, hu2, hu3⟩ | h3
      · exact Or.inl ⟨u, by rw [List.tails_cons]; exact List.mem_cons_of_mem _ hu1, hu2, hu3⟩
      · exact Or.inr h3

lemma dsOnly_of_suffix (ds t : Str) (h : t ∈ ds.tails) (hds : dsOnly ds = true) :
    dsOnly t = true := by
  rw [List.mem_tails] at h
  obtain ⟨u, hu⟩ := h
  subst hu
  rw [dsOnly, List.all_append, Bool.and_eq_true] at hds
  exact hds.2

lemma leadsWith_region_false (k t : Str) (hk : k ≠ []) (hl : lettersOnly k = true)
    (ht : dsOnly t = true) : leadsWith k t = false := by
  cases k with
  | nil => exact absurd rfl hk
  | cons a as =>
    cases t with
    | nil => rfl
    | cons c cs =>
      rw [lettersOnly, List.all_cons, Bool.and_eq_true, Bool.and_eq_true] at hl
      rw [dsOnly, List.all_cons, Bool.and_eq_true] at ht
      have hc : isDigitC c = true ∨ isSpaceC c = true := by simpa using ht.1
      have ha1 : isDigitC a = false := by
        cases hx : isDigitC a
        · rfl
        · rw [hx] at hl; exact absurd hl.1.1 (by decide)
      have ha2 : isSpaceC a = false := by
        cases hx : isSpaceC a
        · rfl
        · rw [hx] at hl; exact absurd hl.1.2 (by decide)
      have hac : (a == c) = false := by
        rw [beq_eq_false_iff_ne]
        intro he
        subst he
        rcases hc with h1 | h1
        · rw [ha1] at h1; cases h1
        · rw [ha2] at h1; cases h1
      rw [leadsWith, hac]
      rfl

lemma dsOnly_tail (d1 d2 : Char) (ys : Str) (hd1 : isDigitC d1 = true)
    (hd2 : isDigitC d2 = true) (hys : digitsOnly ys = true) :
    dsOnly (d1 :: d2 :: ' ' :: ys) = true := by
  rw [dsOnly]
  refine List.all_eq_true.mpr fun c hc => ?_
  rcases List.mem_cons.mp hc with rfl | hc
  · simp [hd1]
  rcases List.mem_cons.mp hc with rfl | hc
  · simp [hd2]
  rcases List.mem_cons.mp hc with rfl | hc
  · decide
  · rw [digitsOnly, List.all_eq_true] at hys
    simp [hys c hc]

lemma containsSub_region_false (k : Str) (hk : k ≠ []) (hl : lettersOnly k = true) :
    ∀ ds : Str, dsOnly ds = true → containsSub k ds = false := by
  intro ds
  induction ds with
  | nil =>
    intro _
    rw [containsSub]
    cases k with
    | nil => exact absurd rfl hk
    | cons a as => rfl
  | cons c cs ih =>
    intro hds
    rw [containsSub, leadsWith_region_false k (c :: cs) hk hl hds, Bool.false_or]
    refine ih ?_
    rw [dsOnly, List.all_cons, Bool.and_eq_true] at hds
    exact hds.2

lemma containsSub_append_ds (k : Str) (hk : k ≠ []) (hl : lettersOnly k = true) :
    ∀ (A ds : Str), dsOnly ds = true → containsSub k (A ++ ds) = containsSub k A := by
  intro A
  induction A with
  | nil =>
    intro ds hds
    rw [List.nil_append, containsSub_region_false k hk hl ds hds]
    cases k with
    | nil => exact absurd rfl hk
    | cons a as => rfl
  | cons a A2 ih =>
    intro ds hds
    rw [List.cons_append, containsSub, containsSub, ih ds hds]
    congr 1
    by_cases hlen : k.length ≤ (a :: A2).length
    · have hres := leadsWith_append_left k (a :: A2) ds hlen
      rw [List.cons_append] at hres
      exact hres
    · have h1 : leadsWith k ((a :: A2) ++ ds) = false :=
        leadsWith_cross_false k (a :: A2) ds hl (by omega) hds
      rw [List.cons_append] at h1
      rw [h1]
      have h2 : leadsWith k (a :: A2) = false := by
        cases hx : leadsWith k (a :: A2)
        · rfl
        · have := leadsWith_length_le k (a :: A2) hx
          omega
      rw [h2]

lemma searchMYear_none_shared (k A : Str) (d1 d2 : Char) (ys : Str)
    (hk : k ≠ []) (hl : lettersOnly k = true)
    (hd1 : isDigitC d1 = true) (hd2 : isDigitC d2 = true) (hys : digitsOnly ys = true)
    (hcond : tailsCond k A = true) :
    search (matchNameYear k) (A ++ (d1 :: d2 :: ' ' :: ys)) = none := by
  have hds : dsOnly (d1 :: d2 :: ' ' :: ys) = true := dsOnly_tail d1 d2 ys hd1 hd2 hys
  have hnd1 : isSpaceC d1 = false := digit_not_space d1 hd1
  apply search_none_of_all
  intro t ht
  rcases tails_append_cases (d1 :: d2 :: ' ' :: ys) A t ht with ⟨u, hu, hune, rfl⟩ | hreg
  · rw [tailsCond, List.all_eq_true] at hcond
    have hu3 := hcond u hu
    by_cases hlw : leadsWith k u = true
    · have hdisj : (u == k ++ [' ']) = true ∨ afterNonSpace k u = true := by
        rw [hlw] at hu3
        simpa using hu3
      have hklen := leadsWith_length_le k u hlw
      rcases hdisj with hdes | hafter
      · have hue : u = k ++ [' '] := by simpa using hdes
        subst hue
        have hpos : leadsWith k ((k ++ [' ']) ++ (d1 :: d2 :: ' ' :: ys)) = true := by
          rw [List.append_assoc]
          exact leadsWith_self_append k _
        rw [matchNameYear, if_pos hpos, List.append_assoc, List.drop_left]
        cases ys with
        | nil =>
          simp [List.takeWhile_cons, hnd1, (by decide : isSpaceC ' ' = true)]
        | cons y0 ys2 =>
          simp [List.takeWhile_cons, hnd1, (by decide : isSpaceC ' ' = true),
            (by decide : isDigitC ' ' = false)]
      · by_cases hlw2 : leadsWith k (u ++ (d1 :: d2 :: ' ' :: ys)) = true
        · rw [matchNameYear, if_pos hlw2, List.drop_append_of_le_length hklen]
          rw [afterNonSpace] at hafter
          cases hdrop : u.drop k.length with
          | nil =>
            simp [List.takeWhile_cons, hnd1]
          | cons c w =>
            rw [hdrop] at hafter
            have hc : isSpaceC c = false := by simpa using hafter
            simp [List.takeWhile_cons, hc]
        · rw [matchNameYear, if_neg hlw2]
    · have hneg : ¬leadsWith k (u ++ (d1 :: d2 :: ' ' :: ys)) = true := by
        intro hcontra
        by_cases hlen : k.length ≤ u.length
        · rw [leadsWith_append_left k u _ hlen] at hcontra
          exact hlw hcontra
        · rw [leadsWith_cross_false k u _ hl (by omega) hds] at hcontra
          cases hcontra
      rw [matchNameYear, if_neg hneg]
  · have hneg : ¬leadsWith k t = true := by
      intro hcontra
      rw [leadsWith_region_false k t hk hl
        (dsOnly_of_suffix (d1 :: d2 :: ' ' :: ys) t hreg hds)] at hcontra
      cases hcontra
    rw [matchNameYear, if_neg hneg]

lemma matchNameDay_designated (k : Str) (rest2 : Str) (c0 : Char)
    (hc0 : isDigitC c0 = true) :
    (matchNameDay k (k ++ (' ' :: c0 :: rest2))).isSome = true := by
  rw [matchNameDay, if_pos (leadsWith_self_append k _), List.drop_left]
  have h1 : isSpaceC c0 = false := digit_not_space c0 hc0
  rw [List.dropWhile_cons, if_pos (by decide : isSpaceC ' ' = true),
    List.dropWhile_cons, if_neg (by rw [h1]; exact Bool.false_ne_true)]
  dsimp only
  rw [if_pos hc0]
  cases rest2 with
  | nil => rfl
  | cons b r =>
    cases hb : isDigitC b <;> simp [hb]

lemma monthsLoop_none_fail (cy : Nat) (q : Str) :
    ∀ keys, monthsLoop cy q keys = none →
      ∀ p ∈ keys, search (matchNameDay p.1) q = none := by
  intro keys
  induction keys with
  | nil => intro _ p hp; cases hp
  | cons kv rest ih =>
    intro h p hp
    obtain ⟨name, num⟩ := kv
    unfold monthsLoop at h
    cases e1 : search (matchNameYear name) q with
    | some y => rw [e1] at h; cases h
    | none =>
      rw [e1] at h
      dsimp only at h
      cases e2 : search (matchNameDay name) q with
      | some d => rw [e2] at h; dsimp only at h; cases h
      | none =>
        rw [e2] at h
        dsimp only at h
        cases e3 : search (matchDayName name) q with
        | some d => rw [e3] at h; dsimp only at h; cases h
        | none =>
          rw [e3] at h
          dsimp only at h
          by_cases e4 : (containsSub name q && decide (3 < name.length)) = true
          · rw [if_pos e4] at h; cases h
          · rw [if_neg e4] at h
            rcases List.mem_cons.mp hp with rfl | hp2
            · exact e2
            · exact ih h p hp2

lemma extract_month_isSome (today : PDate) (Mname : Str) (num : Nat)
    (c0 : Char) (ys2 : Str) (hc0 : isDigitC c0 = true)
    (hmem : (Mname, num) ∈ monthKeys)
    (rendered : Str) (hq : lowerS rendered = Mname ++ (' ' :: c0 :: ys2)) :
    ∃ s, extract_date today rendered = some s := by
  unfold extract_date
  rw [hq]
  by_cases h1 : containsSub (str "yesterday") (Mname ++ (' ' :: c0 :: ys2)) = true
  · exact ⟨_, by rw [if_pos h1]⟩
  rw [if_neg h1]
  by_cases h2 : containsSub (str "today") (Mname ++ (' ' :: c0 :: ys2)) = true
  · exact ⟨_, by rw [if_pos h2]⟩
  rw [if_neg h2]
  by_cases h3 : containsSub (str "last week") (Mname ++ (' ' :: c0 :: ys2)) = true
  · exact ⟨_, by rw [if_pos h3]⟩
  rw [if_neg h3]
  by_cases h4 : containsSub (str "this week") (Mname ++ (' ' :: c0 :: ys2)) = true
  · exact ⟨_, by rw [if_pos h4]⟩
  rw [if_neg h4]
  cases hml : monthsLoop today.year (Mname ++ (' ' :: c0 :: ys2)) monthKeys with
  | some r => exact ⟨r, rfl⟩
  | none =>
    exfalso
    have hfail := monthsLoop_none_fail today.year _ monthKeys hml (Mname, num) hmem
    have hmemt : (Mname ++ (' ' :: c0 :: ys2)) ∈ (Mname ++ (' ' :: c0 :: ys2)).tails := by
      rw [List.mem_tails]
    have hsome : (search (matchNameDay Mname) (Mname ++ (' ' :: c0 :: ys2))).isSome = true :=
      search_isSome_of_mem _ _ _ hmemt (matchNameDay_designated Mname ys2 c0 hc0)
    rw [hfail] at hsome
    cases hsome

lemma monthsLoop_day_gran (cy : Nat) (A : Str) (d1 d2 : Char) (ys : Str)
    (Mname : Str) (hd1 : isDigitC d1 = true) (hd2 : isDigitC d2 = true)
    (hys : digitsOnly ys = true) (hMne : Mname ≠ [])
    (hMl : lettersOnly Mname = true) (hW : tailsCond Mname A = true)
    (B : Str) (hA : A = B ++ (Mname ++ [' '])) :
    ∀ keys : List (Str × Nat),
      (∀ p ∈ keys, p.1 ≠ Mname → EarlyOk p.1 A = true) →
      (∃ n0, (Mname, n0) ∈ keys) →
      ∃ n d, monthsLoop cy (A ++ (d1 :: d2 :: ' ' :: ys)) keys
        = some (fmtDay cy n d) := by
  have hds : dsOnly (d1 :: d2 :: ' ' :: ys) = true := dsOnly_tail d1 d2 ys hd1 hd2 hys
  intro keys
  induction keys with
  | nil =>
    intro _ hmem
    obtain ⟨n0, hn0⟩ := hmem
    cases hn0
  | cons kv rest ih =>
    intro hE hmem
    obtain ⟨name, num⟩ := kv
    by_cases hname : name = Mname
    · subst hname
      have hmy : search (matchNameYear name) (A ++ (d1 :: d2 :: ' ' :: ys)) = none :=
        searchMYear_none_shared name A d1 d2 ys hMne hMl hd1 hd2 hys hW
      have hm1 : (search (matchNameDay name) (A ++ (d1 :: d2 :: ' ' :: ys))).isSome
          = true := by
        refine search_isSome_of_mem _ _ ((name ++ [' ']) ++ (d1 :: d2 :: ' ' :: ys)) ?_ ?_
        · rw [List.mem_tails, hA, List.append_assoc]
          exact ⟨B, by simp [List.append_assoc]⟩
        · have hre : (name ++ [' ']) ++ (d1 :: d2 :: ' ' :: ys)
              = name ++ (' ' :: d1 :: d2 :: ' ' :: ys) := by
            rw [List.append_assoc]
            rfl
          rw [hre]
          exact matchNameDay_designated name (d2 :: ' ' :: ys) d1 hd1
      unfold monthsLoop
      rw [hmy]
      dsimp only
      cases hm1v : search (matchNameDay name) (A ++ (d1 :: d2 :: ' ' :: ys)) with
      | none => rw [hm1v] at hm1; cases hm1
      | some d => exact ⟨num, d, rfl⟩
    · have hok := hE (name, num) (List.mem_cons_self _ _) hname
      rw [EarlyOk] at hok
      simp only [Bool.and_eq_true] at hok
      obtain ⟨⟨⟨hne, hlet⟩, htc⟩, hbare⟩ := hok
      have hkne : name ≠ [] := by
        intro he
        rw [he] at hne
        exact absurd hne (by decide)
      have hmy : search (matchNameYear name) (A ++ (d1 :: d2 :: ' ' :: ys)) = none :=
        searchMYear_none_shared name A d1 d2 ys hkne hlet hd1 hd2 hys htc
      unfold monthsLoop
      rw [hmy]
      dsimp only
      cases e2 : search (matchNameDay name) (A ++ (d1 :: d2 :: ' ' :: ys)) with
      | some d => exact ⟨num, d, rfl⟩
      | none =>
        dsimp only
        cases e3 : search (matchDayName name) (A ++ (d1 :: d2 :: ' ' :: ys)) with
        | some d => exact ⟨num, d, rfl⟩
        | none =>
          dsimp only
          have hbare2 : (containsSub name (A ++ (d1 :: d2 :: ' ' :: ys))
              && decide (3 < name.length)) = false := by
            have hsplit : name.length ≤ 3 ∨ (!containsSub name A) = true := by
              simpa using hbare
            rcases hsplit with hlen | hnc
            · rw [Bool.and_eq_false_iff]
              right
              simpa using (by omega : ¬3 < name.length)
            · rw [Bool.and_eq_false_iff]
              left
              rw [containsSub_append_ds name hkne hlet A _ hds]
              simpa using hnc
          rw [if_neg (by rw [hbare2]; exact Bool.false_ne_true)]
          refine ih (fun p hp hpn => hE p (List.mem_cons_of_mem _ hp) hpn) ?_
          obtain ⟨n0, hn0⟩ := hmem
          rcases List.mem_cons.mp hn0 with heq | hmem2
          · exact absurd (congrArg Prod.fst heq).symm hname
          · exact ⟨n0, hmem2⟩

lemma lowerS_append (a b : Str) : lowerS (a ++ b) = lowerS a ++ lowerS b :=
  List.map_append _ a b

lemma natRepr_head_digit (y : Nat) :
    ∃ c0 ys2, natRepr y = c0 :: ys2 ∧ isDigitC c0 = true
      ∧ digitsOnly (natRepr y) = true := by
  obtain ⟨hd, hne⟩ := natRepr_digits y
  cases hc : natRepr y with
  | nil => exact absurd hc hne
  | cons c0 ys2 =>
    refine ⟨c0, ys2, rfl, ?_, hc ▸ hd⟩
    rw [hc, digitsOnly, List.all_cons, Bool.and_eq_true] at hd
    exact hd.1

lemma pad2_two_chars (n : Nat) (h : n ≤ 99) :
    ∃ e1 e2, pad2 n = [e1, e2] ∧ isDigitC e1 = true ∧ isDigitC e2 = true := by
  obtain ⟨hdig, hlen⟩ := pad2_shape n h
  cases hc : pad2 n with
  | nil => rw [hc] at hlen; cases hlen
  | cons e1 rest =>
    cases rest with
    | nil => rw [hc] at hlen; cases hlen
    | cons e2 rest2 =>
      cases rest2 with
      | cons e3 r3 => rw [hc] at hlen; simp at hlen
      | nil =>
        rw [hc, digitsOnly, List.all_cons, List.all_cons, Bool.and_eq_true,
          Bool.and_eq_true] at hdig
        exact ⟨e1, e2, rfl, hdig.1, hdig.2.1⟩

lemma strptimeYMD_bounds (s : Str) (dt : PDate) (h : strptimeYMD s = some dt) :
    1 ≤ dt.month ∧ dt.month ≤ 12 ∧ 1 ≤ dt.day ∧ dt.day ≤ daysInMonth dt.year dt.month := by
  unfold strptimeYMD at h
  cases hsp : splitDash s with
  | nil => rw [hsp] at h; cases h
  | cons ys rest1 =>
    cases rest1 with
    | nil => rw [hsp] at h; cases h
    | cons ms rest2 =>
      cases rest2 with
      | nil => rw [hsp] at h; cases h
      | cons ds rest3 =>
        cases rest3 with
        | cons x r4 => rw [hsp] at h; cases h
        | nil =>
          rw [hsp] at h
          dsimp only at h
          by_cases hc1 : (ys.length = 4 && digitsOnly ys && decide (1 ≤ ms.length)
              && decide (ms.length ≤ 2) && digitsOnly ms && decide (1 ≤ ds.length)
              && decide (ds.length ≤ 2) && digitsOnly ds) = true
          · rw [if_pos hc1] at h
            by_cases hc2 : (1 ≤ digitsVal ys && 1 ≤ digitsVal ms && digitsVal ms ≤ 12
                && 1 ≤ digitsVal ds
                && digitsVal ds ≤ daysInMonth (digitsVal ys) (digitsVal ms)) = true
            · rw [if_pos hc2] at h
              injection h with h
              subst h
              simp only [Bool.and_eq_true, decide_eq_true_eq] at hc2
              exact ⟨hc2.1.1.1.2, hc2.1.1.2, hc2.1.2, hc2.2⟩
            · rw [if_neg hc2] at h; cases h
          · rw [if_neg hc1] at h; cases h

lemma extract_day_gran (today : PDate) (rendered : Str) (B Mname : Str)
    (d1 d2 : Char) (ys : Str)
    (hq : lowerS rendered = (B ++ (Mname ++ [' '])) ++ (d1 :: d2 :: ' ' :: ys))
    (hd1 : isDigitC d1 = true) (hd2 : isDigitC d2 = true) (hys : digitsOnly ys = true)
    (hMne : Mname ≠ []) (hMl : lettersOnly Mname = true)
    (hW : tailsCond Mname (B ++ (Mname ++ [' '])) = true)
    (hE : ∀ p ∈ monthKeys, p.1 ≠ Mname → EarlyOk p.1 (B ++ (Mname ++ [' '])) = true)
    (hmem : ∃ n0, (Mname, n0) ∈ monthKeys) :
    ∃ y n d, extract_date today rendered = some (fmtDay y n d) := by
  unfold extract_date
  rw [hq]
  by_cases h1 : containsSub (str "yesterday")
      ((B ++ (Mname ++ [' '])) ++ (d1 :: d2 :: ' ' :: ys)) = true
  · exact ⟨(prevDay today).year, (prevDay today).month, (prevDay today).day,
      by rw [if_pos h1]; rfl⟩
  rw [if_neg h1]
  by_cases h2 : containsSub (str "today")
      ((B ++ (Mname ++ [' '])) ++ (d1 :: d2 :: ' ' :: ys)) = true
  · exact ⟨today.year, today.month, today.day, by rw [if_pos h2]; rfl⟩
  rw [if_neg h2]
  by_cases h3 : containsSub (str "last week")
      ((B ++ (Mname ++ [' '])) ++ (d1 :: d2 :: ' ' :: ys)) = true
  · exact ⟨(minusDays 7 today).year, (minusDays 7 today).month, (minusDays 7 today).day,
      by rw [if_pos h3]; rfl⟩
  rw [if_neg h3]
  by_cases h4 : containsSub (str "this week")
      ((B ++ (Mname ++ [' '])) ++ (d1 :: d2 :: ' ' :: ys)) = true
  · exact ⟨today.year, today.month, today.day, by rw [if_pos h4]; rfl⟩
  rw [if_neg h4]
  obtain ⟨n, d, hml⟩ := monthsLoop_day_gran today.year (B ++ (Mname ++ [' ']))
    d1 d2 ys Mname hd1 hd2 hys hMne hMl hW B rfl monthKeys hE hmem
  exact ⟨today.year, n, d, by rw [hml]⟩

lemma monthName_key (m : Nat) (h1 : 1 ≤ m) (h2 : m ≤ 12) :
    (lowerS (monthName m), m) ∈ monthKeys := by
  interval_cases m <;> decide

lemma day_side_conditions (m : Nat) (h1 : 1 ≤ m) (h2 : m ≤ 12) (k : Nat) (hk : k < 7) :
    lowerS (monthName m) ≠ []
      ∧ lettersOnly (lowerS (monthName m)) = true
      ∧ tailsCond (lowerS (monthName m))
          ((lowerS (weekdayOfNum k) ++ [' ']) ++ (lowerS (monthName m) ++ [' '])) = true
      ∧ (∀ p ∈ monthKeys, p.1 ≠ lowerS (monthName m) →
          EarlyOk p.1
            ((lowerS (weekdayOfNum k) ++ [' ']) ++ (lowerS (monthName m) ++ [' ']))
            = true) := by
  interval_cases k <;> interval_cases m <;> decide

/-- Claim C8.  Feeding the rendered expansion text of an extracted date back
through `extract_date` never loses specificity: a month-granularity result
(`len == 7`) re-extracts to some date, and a day-granularity result
re-extracts to a day-granularity date (rendered weekday, month name, padded
day and year are scanned by the month-name day rules before anything can
fall through). -/
theorem c8_expansion_roundtrip (today : PDate) (q df rendered : Str)
    (_h1 : extract_date today q = some df)
    (h2 : renderExpansion df = some rendered) :
    (df.length = 7 → ∃ s, extract_date today rendered = some s)
    ∧ (df.length ≠ 7 → ∃ y n d, extract_date today rendered = some (fmtDay y n d)) := by
  constructor
  · intro hlen
    rw [renderExpansion, if_pos hlen] at h2
    cases hst : strptimeYMD (df ++ str "-01") with
    | none => rw [hst] at h2; cases h2
    | some dt =>
      rw [hst] at h2
      dsimp only at h2
      injection h2 with h2
      obtain ⟨y2, m2, d2v⟩ := dt
      have hb := strptimeYMD_bounds _ _ hst
      have hb1 : 1 ≤ m2 := hb.1
      have hb2 : m2 ≤ 12 := hb.2.1
      obtain ⟨c0, ys2, hna, hc0, hdig⟩ := natRepr_head_digit y2
      refine extract_month_isSome today (lowerS (monthName m2)) m2 c0 ys2 hc0
        (monthName_key m2 hb1 hb2) rendered ?_
      rw [← h2, renderMonth, lowerS_append, lowerS_append,
        lowerS_digits _ (natRepr_digits y2).1, hna]
      simp [List.append_assoc, (by decide : lowerS (str " ") = [' '])]
  · intro hlen
    rw [renderExpansion, if_neg hlen] at h2
    cases hst : strptimeYMD df with
    | none => rw [hst] at h2; cases h2
    | some dt =>
      rw [hst] at h2
      dsimp only at h2
      injection h2 with h2
      obtain ⟨y2, m2, d2v⟩ := dt
      have hb := strptimeYMD_bounds _ _ hst
      have hb1 : 1 ≤ m2 := hb.1
      have hb2 : m2 ≤ 12 := hb.2.1
      have hd99 : d2v ≤ 99 := by
        have h3 : d2v ≤ daysInMonth y2 m2 := hb.2.2.2
        have h4 := daysInMonth_le31 y2 m2
        omega
      obtain ⟨e1, e2, hpd, he1, he2⟩ := pad2_two_chars d2v hd99
      have hw : dayNumber ⟨y2, m2, d2v⟩ % 7 < 7 := Nat.mod_lt _ (by norm_num)
      obtain ⟨hne, hlet, htc, hE⟩ := day_side_conditions m2 hb1 hb2 _ hw
      refine extract_day_gran today rendered
        (lowerS (weekdayOfNum (dayNumber ⟨y2, m2, d2v⟩ % 7)) ++ [' '])
        (lowerS (monthName m2)) e1 e2 (natRepr y2) ?_ he1 he2 (natRepr_digits y2).1
        hne hlet htc hE ⟨m2, monthName_key m2 hb1 hb2⟩
      rw [← h2, renderDay, weekdayName]
      simp only [lowerS_append]
      rw [lowerS_digits _ (pad2_shape d2v hd99).1, lowerS_digits _ (natRepr_digits y2).1,
        hpd]
      simp [List.append_assoc, (by decide : lowerS (str " ") = [' '])]

/-- Claim C8 (witness): month-granularity round trip on a concrete date. -/
theorem c8_witness :
    extract_date ⟨2025, 10, 12⟩ (str "songs from march 2024") = some (str "2024-03")
      ∧ renderExpansion (str "2024-03") = some (str "March 2024")
      ∧ ∃ s, extract_date ⟨2025, 10, 12⟩ (str "March 2024") = some s :=
  ⟨by decide, by decide,
    (c8_expansion_roundtrip ⟨2025, 10, 12⟩ (str "songs from march 2024") (str "2024-03")
      (str "March 2024") (by decide) (by decide)).1 (by decide)⟩
